import Mathlib

/-!
# vecbuf: the chunked entry store of `shardBuffer.cpp`

A shallow embedding of `shard_buffer_t` (file `src/shardBuffer.cpp`) and the
properties of its operations `set`, `get`, `app`, `del`, `push_back` and
`serialize`.

Modelling conventions.

* A `std::string` is a list of bytes, a `std::vector` is a list.  Allocation
  failure (`bad_alloc`, `length_error`) is not modelled.
* `size_t` is 64 bits wide.  A `size_t` value is a `Nat`; every addition and
  subtraction the source performs on `size_t` is taken modulo `2^64`
  (`size_add`, `size_sub`).
* A call of the source either returns or does not.  It does not return when
  it leaves the defined behaviour of C++ (`operator[]` beyond the end of a
  vector, a read beyond the end of a string buffer, a `memcpy` beyond the end
  of the caller's buffer) or when `std::string::erase` throws because the
  position is beyond the size.  These are the alternatives of `Fault`, and
  every operation that can meet one returns an `Except Fault`.
* `get` receives the caller's buffer as the list of the bytes it holds and the
  capacity `userbuf_sz` the caller announces; it returns the status, the
  buffer afterwards and the value left in `userbuf_sz`.
* The header `shardBuffer.hpp` is not among the sources.  Its macros
  `CHECK_OUT_RANGE`, `GET_CHUNK_INDEX` and `GET_CHUNK_OFFSET` follow the
  specification; the status codes are used by name only.
-/

namespace vecbuf

/-- One `char`. -/
abbrev Byte := UInt8

/-- The modulus of `size_t` arithmetic. -/
def SIZE_MOD : Nat := 2 ^ 64

/-- Addition of two `size_t` values. -/
def size_add (a b : Nat) : Nat := (a + b) % SIZE_MOD

/-- Subtraction of two `size_t` values. -/
def size_sub (a b : Nat) : Nat := (a + (SIZE_MOD - b % SIZE_MOD)) % SIZE_MOD

/-- The ways an operation can fail to return. -/
inductive Fault where
  /-- `operator[]` on a vector with an index that is not below its size. -/
  | vector_index
  /-- A read of a string buffer that goes beyond its terminator. -/
  | string_read
  /-- A write beyond the end of the caller's buffer. -/
  | userbuf_overrun
  /-- The exception `std::out_of_range` of `std::string::erase`. -/
  | out_of_range
  deriving DecidableEq

deriving instance DecidableEq for Except

/-- The status codes the operations return.  The header that gives them their
integer values is not part of the sources; only their names are used. -/
inductive Status where
  | _SHARDBUF_SUCCEED
  | _SHARDBUF_OVERFLOW
  | _SHARDBUF_OUT_OF_RANGE
  deriving DecidableEq

open Status

/-- The members of `shard_buffer_t`: `chunk_log`, the chunk buffers, the
entries `(chunk_loc, chunk_sz)` and the overlays. -/
structure shard_buffer_t where
  chunk_log : Nat
  chunks : List (List Byte)
  entries : List (Nat × Nat)
  growbuf : List (List Byte)
  deriving DecidableEq

/-- Modelled from the spec: the macro `GET_CHUNK_INDEX` of the missing header
`shardBuffer.hpp`; "chunk_index = chunk_loc / chunk_size" with chunk size
`2^chunk_log`. -/
def GET_CHUNK_INDEX (chunk_loc chunk_log : Nat) : Nat := chunk_loc / 2 ^ chunk_log

/-- Modelled from the spec: the macro `GET_CHUNK_OFFSET` of the missing header
`shardBuffer.hpp`; "chunk_offset = chunk_loc mod chunk_size" with chunk size
`2^chunk_log`. -/
def GET_CHUNK_OFFSET (chunk_loc chunk_log : Nat) : Nat := chunk_loc % 2 ^ chunk_log

/-- Modelled from the spec: the test of the macro `CHECK_OUT_RANGE` of the
missing header `shardBuffer.hpp`; "OutOfRange (entry index not within
[0, entryCount))".  When it holds the operation returns
`_SHARDBUF_OUT_OF_RANGE` at once. -/
def CHECK_OUT_RANGE (s : shard_buffer_t) (idx : Nat) : Bool :=
  decide (s.entries.length ≤ idx)

/-- The element `v[i]` of a vector: not defined when `i` is not below the size. -/
def vec_at {α : Type} (v : List α) (i : Nat) : Except Fault α :=
  match v[i]? with
  | some x => .ok x
  | none => .error .vector_index

/-- The `n` bytes at `&str[pos]`.  The buffer of a string holds its characters
and the terminator `0`; `str[pos]` needs `pos ≤ size`. -/
def string_read (str : List Byte) (pos n : Nat) : Except Fault (List Byte) :=
  if pos ≤ str.length ∧ pos + n ≤ str.length + 1 then
    .ok (((str ++ [0]).drop pos).take n)
  else .error .string_read

/-- The call `str.erase(pos, n)`: throws when `pos > size`, removes
`min n (size - pos)` characters otherwise. -/
def string_erase (str : List Byte) (pos n : Nat) : Except Fault (List Byte) :=
  if str.length < pos then .error .out_of_range
  else .ok (str.take pos ++ str.drop (pos + min n (str.length - pos)))

/-- The call `memcpy(userbuf + off, src, |src|)` on the caller's buffer. -/
def memcpy (userbuf : List Byte) (off : Nat) (src : List Byte) : Except Fault (List Byte) :=
  if off + src.length ≤ userbuf.length then
    .ok (userbuf.take off ++ src ++ userbuf.drop (off + src.length))
  else .error .userbuf_overrun

namespace shard_buffer_t

/-- `shard_buffer_t::set(idx, userbuf, userbuf_sz)`; the argument is the list of
the `userbuf_sz` bytes at `userbuf`. -/
def set (s : shard_buffer_t) (idx : Nat) (userbuf : List Byte) :
    Except Fault (Status × shard_buffer_t) :=
  if CHECK_OUT_RANGE s idx then .ok (_SHARDBUF_OUT_OF_RANGE, s)
  else
    let entries := s.entries.set idx (0, 0)
    match vec_at s.growbuf idx with
    | .error f => .error f
    | .ok _ =>
      .ok (_SHARDBUF_SUCCEED,
        { s with entries := entries, growbuf := s.growbuf.set idx userbuf })

/-- `shard_buffer_t::get(idx, userbuf, userbuf_sz)`: the status, the caller's
buffer afterwards and the value left in `userbuf_sz`. -/
def get (s : shard_buffer_t) (idx : Nat) (userbuf : List Byte) (userbuf_sz : Nat) :
    Except Fault (Status × List Byte × Nat) :=
  if CHECK_OUT_RANGE s idx then .ok (_SHARDBUF_OUT_OF_RANGE, userbuf, userbuf_sz)
  else
    match vec_at s.entries idx with
    | .error f => .error f
    | .ok (chunk_loc, chunk_sz) =>
    match vec_at s.growbuf idx with
    | .error f => .error f
    | .ok g =>
    let data_sz := size_add chunk_sz g.length
    if data_sz > userbuf_sz then .ok (_SHARDBUF_OVERFLOW, userbuf, userbuf_sz)
    else
      -- userbuf_sz = 0; if (chunk_sz > 0) { memcpy ...; userbuf_sz += chunk_sz; }
      let r1 : Except Fault (List Byte × Nat) :=
        if chunk_sz > 0 then
          let chunk_idx := GET_CHUNK_INDEX chunk_loc s.chunk_log
          let chunk_offset := GET_CHUNK_OFFSET chunk_loc s.chunk_log
          match vec_at s.chunks chunk_idx with
          | .error f => .error f
          | .ok chunk =>
          match string_read chunk chunk_offset chunk_sz with
          | .error f => .error f
          | .ok bytes =>
          match memcpy userbuf 0 bytes with
          | .error f => .error f
          | .ok buf => .ok (buf, size_add 0 chunk_sz)
        else .ok (userbuf, 0)
      match r1 with
      | .error f => .error f
      | .ok (buf, n) =>
        -- if (growbuf[idx].size() > 0) { memcpy ...; userbuf_sz += size; }
        if g.length > 0 then
          match memcpy buf n g with
          | .error f => .error f
          | .ok buf2 => .ok (_SHARDBUF_SUCCEED, buf2, size_add n g.length)
        else .ok (_SHARDBUF_SUCCEED, buf, n)

/-- `shard_buffer_t::app(idx, userbuf, userbuf_sz)`. -/
def app (s : shard_buffer_t) (idx : Nat) (userbuf : List Byte) :
    Except Fault (Status × shard_buffer_t) :=
  if CHECK_OUT_RANGE s idx then .ok (_SHARDBUF_OUT_OF_RANGE, s)
  else
    match vec_at s.growbuf idx with
    | .error f => .error f
    | .ok g => .ok (_SHARDBUF_SUCCEED, { s with growbuf := s.growbuf.set idx (g ++ userbuf) })

/-- `shard_buffer_t::del(idx)`, the overload that clears an entry. -/
def del (s : shard_buffer_t) (idx : Nat) : Except Fault (Status × shard_buffer_t) :=
  if CHECK_OUT_RANGE s idx then .ok (_SHARDBUF_OUT_OF_RANGE, s)
  else
    -- entries[idx].first = 0; entries[idx].second = 0;
    let entries := s.entries.set idx (0, 0)
    match vec_at s.growbuf idx with
    | .error f => .error f
    | .ok _ => .ok (_SHARDBUF_SUCCEED, { s with entries := entries, growbuf := s.growbuf.set idx [] })

/-- `shard_buffer_t::del(idx, offset, sz)`, the overload that deletes a range. -/
def del_range (s : shard_buffer_t) (idx offset sz : Nat) :
    Except Fault (Status × shard_buffer_t) :=
  if CHECK_OUT_RANGE s idx then .ok (_SHARDBUF_OUT_OF_RANGE, s)
  else
    match vec_at s.entries idx with
    | .error f => .error f
    | .ok (chunk_loc, chunk_sz) =>
    let chunk_idx := GET_CHUNK_INDEX chunk_loc s.chunk_log
    let chunk_offset := GET_CHUNK_OFFSET chunk_loc s.chunk_log
    if size_add offset sz ≤ chunk_sz then
      -- delete within the chunk
      match vec_at s.chunks chunk_idx with
      | .error f => .error f
      | .ok chunk =>
      match string_erase chunk (size_add chunk_offset offset) sz with
      | .error f => .error f
      | .ok chunk2 =>
        .ok (_SHARDBUF_SUCCEED,
          { s with chunks := s.chunks.set chunk_idx chunk2,
                   entries := s.entries.set idx (chunk_loc, size_sub chunk_sz sz) })
    else if offset ≤ chunk_sz then
      -- delete in both
      let delta := size_sub (size_add offset sz) chunk_sz
      match vec_at s.chunks chunk_idx with
      | .error f => .error f
      | .ok chunk =>
      match string_erase chunk (size_add chunk_offset offset) (size_sub sz delta) with
      | .error f => .error f
      | .ok chunk2 =>
      match vec_at s.growbuf idx with
      | .error f => .error f
      | .ok g =>
      match string_erase g 0 delta with
      | .error f => .error f
      | .ok g2 =>
        .ok (_SHARDBUF_SUCCEED,
          { s with chunks := s.chunks.set chunk_idx chunk2,
                   growbuf := s.growbuf.set idx g2 })
    else
      match vec_at s.growbuf idx with
      | .error f => .error f
      | .ok g =>
      if size_sub (size_add offset sz) chunk_sz < g.length then
        -- delete in growbuf only
        match string_erase g (size_sub offset chunk_sz) sz with
        | .error f => .error f
        | .ok g2 => .ok (_SHARDBUF_SUCCEED, { s with growbuf := s.growbuf.set idx g2 })
      else .ok (_SHARDBUF_SUCCEED, s)

/-- `shard_buffer_t::push_back(buf, bufsz)`: the value returned and the store
afterwards. -/
def push_back (s : shard_buffer_t) (buf : List Byte) : Status × shard_buffer_t :=
  (_SHARDBUF_SUCCEED,
    { s with entries := s.entries ++ [(0, 0)], growbuf := s.growbuf ++ [buf] })

/-- The first loop of `serialize`: the largest `chunk_loc`, starting from `acc`. -/
def max_chunk_loc (acc : Nat) : List (Nat × Nat) → Nat
  | [] => acc
  | e :: es => max_chunk_loc (if acc > e.1 then acc else e.1) es

/-- The second loop of `serialize`, `n` iterations from index `i` on: the new
chunks and the entries at the end. -/
def serialize_loop (s : shard_buffer_t) :
    Nat → Nat → List (List Byte) → List (Nat × Nat) →
      Except Fault (List (List Byte) × List (Nat × Nat))
  | 0, _, new_chunks, entries => .ok (new_chunks, entries)
  | n + 1, i, new_chunks, entries =>
    match vec_at entries i with
    | .error f => .error f
    | .ok (chunk_loc, chunk_sz) =>
    let chunk_idx := GET_CHUNK_INDEX chunk_loc s.chunk_log
    let chunk_offset := GET_CHUNK_OFFSET chunk_loc s.chunk_log
    match vec_at new_chunks chunk_idx with
    | .error f => .error f
    | .ok target =>
    let new_chunk_offset := target.length
    match vec_at s.growbuf i with
    | .error f => .error f
    | .ok g =>
    let new_chunk_datasz := size_add chunk_sz g.length
    let entries2 := entries.set i (new_chunk_offset, new_chunk_datasz)
    match vec_at s.chunks chunk_idx with
    | .error f => .error f
    | .ok chunk =>
    match string_read chunk chunk_offset chunk_sz with
    | .error f => .error f
    | .ok bytes =>
      serialize_loop s n (i + 1) (new_chunks.set chunk_idx (target ++ bytes ++ g)) entries2

/-- `shard_buffer_t::serialize()`: the store afterwards.  (The source function
has no `return` statement; no status is modelled.) -/
def serialize (s : shard_buffer_t) : Except Fault shard_buffer_t :=
  let num_new_chunks := max_chunk_loc 0 s.entries / 2 ^ s.chunk_log
  let new_chunks : List (List Byte) := List.replicate num_new_chunks []
  match serialize_loop s s.entries.length 0 new_chunks s.entries with
  | .error f => .error f
  | .ok (chunks, entries) =>
    -- chunks = move(new_chunks); growbuf.clear();
    .ok { s with chunks := chunks, entries := entries, growbuf := [] }

/-- Entry `idx` exists and its chunk span lies inside its chunk buffer: the
chunk with its chunk index exists and holds `chunk_sz` bytes from its chunk
offset on. -/
def span_inside (s : shard_buffer_t) (idx : Nat) : Bool :=
  match s.entries[idx]? with
  | none => false
  | some (chunk_loc, chunk_sz) =>
    match s.chunks[GET_CHUNK_INDEX chunk_loc s.chunk_log]? with
    | none => false
    | some chunk => decide (GET_CHUNK_OFFSET chunk_loc s.chunk_log + chunk_sz ≤ chunk.length)

end shard_buffer_t

/-- The chunk-resident bytes of an entry, as `get` reads them. -/
def chunk_part (s : shard_buffer_t) (chunk_loc chunk_sz : Nat) : Except Fault (List Byte) :=
  if chunk_sz > 0 then
    match vec_at s.chunks (GET_CHUNK_INDEX chunk_loc s.chunk_log) with
    | .error f => .error f
    | .ok chunk => string_read chunk (GET_CHUNK_OFFSET chunk_loc s.chunk_log) chunk_sz
  else .ok []

/-- The calls `app(idx, b1)`, ..., `app(idx, bn)` of a caller, in this order. -/
def app_all (s : shard_buffer_t) (idx : Nat) : List (List Byte) → Except Fault shard_buffer_t
  | [] => .ok s
  | b :: bs =>
    match s.app idx b with
    | .error f => .error f
    | .ok (_, s2) => app_all s2 idx bs

/-- The value of `num_new_chunks` in `serialize` when `new_chunks` is
allocated: the largest `chunk_loc`, shifted right by `chunk_log`. -/
def num_new_chunks (s : shard_buffer_t) : Nat :=
  shard_buffer_t.max_chunk_loc 0 s.entries / 2 ^ s.chunk_log

open shard_buffer_t

/-! ## Basic facts about the primitives -/

theorem vec_at_ok {α : Type} {v : List α} {i : Nat} {x : α} (h : v[i]? = some x) :
    vec_at v i = .ok x := by
  simp [vec_at, h]

theorem vec_at_error {α : Type} {v : List α} {i : Nat} (h : v.length ≤ i) :
    vec_at v i = .error .vector_index := by
  simp [vec_at, List.getElem?_eq_none h]

theorem size_add_of_lt {a b : Nat} (h : a + b < SIZE_MOD) : size_add a b = a + b := by
  simp [size_add, Nat.mod_eq_of_lt h]

theorem size_sub_of_le {a b : Nat} (hb : b ≤ a) (ha : a < SIZE_MOD) : size_sub a b = a - b := by
  unfold size_sub
  have hb2 : b % SIZE_MOD = b := Nat.mod_eq_of_lt (by omega)
  rw [hb2]
  have : a + (SIZE_MOD - b) = (a - b) + SIZE_MOD := by omega
  rw [this, Nat.add_mod_right, Nat.mod_eq_of_lt (by omega)]

theorem string_read_inside {str : List Byte} {pos n : Nat} (h : pos + n ≤ str.length) :
    string_read str pos n = .ok ((str.drop pos).take n) := by
  unfold string_read
  have h1 : pos ≤ str.length ∧ pos + n ≤ str.length + 1 := by omega
  rw [if_pos h1, List.drop_append_of_le_length (by omega),
    List.take_append_of_le_length (by simp; omega)]

theorem string_read_length {str bytes : List Byte} {pos n : Nat}
    (h : string_read str pos n = .ok bytes) : bytes.length = n := by
  unfold string_read at h
  split at h
  · rename_i hc
    injection h with h
    subst h
    simp
    omega
  · cases h

theorem memcpy_zero {userbuf src : List Byte} (h : src.length ≤ userbuf.length) :
    memcpy userbuf 0 src = .ok (src ++ userbuf.drop src.length) := by
  simp [memcpy, h]

theorem memcpy_after {userbuf a g : List Byte} (h : a.length + g.length ≤ userbuf.length) :
    memcpy (a ++ userbuf.drop a.length) a.length g
      = .ok (a ++ g ++ userbuf.drop (a.length + g.length)) := by
  have h1 : a.length + g.length ≤ (a ++ userbuf.drop a.length).length := by
    simp; omega
  simp [memcpy, h1, Nat.add_comm]
  omega

theorem chunk_part_length {s : shard_buffer_t} {chunk_loc chunk_sz : Nat} {bytes : List Byte}
    (h : chunk_part s chunk_loc chunk_sz = .ok bytes) : bytes.length = chunk_sz := by
  unfold chunk_part at h
  split at h
  · split at h
    · cases h
    · exact string_read_length h
  · injection h with h
    subst h
    simp
    omega

theorem get_of_chunk_part (s : shard_buffer_t) (idx : Nat) (userbuf : List Byte)
    (userbuf_sz chunk_loc chunk_sz : Nat) (g bytes : List Byte)
    (he : s.entries[idx]? = some (chunk_loc, chunk_sz)) (hg : s.growbuf[idx]? = some g)
    (hbytes : chunk_part s chunk_loc chunk_sz = .ok bytes)
    (hcap : chunk_sz + g.length ≤ userbuf_sz) (hfit : chunk_sz + g.length < SIZE_MOD)
    (hbuf : chunk_sz + g.length ≤ userbuf.length) :
    s.get idx userbuf userbuf_sz
      = .ok (_SHARDBUF_SUCCEED, bytes ++ g ++ userbuf.drop (chunk_sz + g.length),
          chunk_sz + g.length) := by
  have hidx : idx < s.entries.length := by
    rcases List.getElem?_eq_some.1 he with ⟨h, _⟩
    exact h
  have hlen := chunk_part_length hbytes
  have hadd : size_add chunk_sz g.length = chunk_sz + g.length := size_add_of_lt (by omega)
  have hadd0 : size_add 0 chunk_sz = chunk_sz := by
    rw [size_add_of_lt (by omega)]; simp
  unfold shard_buffer_t.get
  simp only [CHECK_OUT_RANGE, vec_at_ok he, vec_at_ok hg, hadd]
  rw [if_neg (by simpa using hidx), if_neg (by omega)]
  have hfin : ∀ (buf : List Byte), buf = bytes ++ userbuf.drop chunk_sz →
      (if g.length > 0 then
          match memcpy buf chunk_sz g with
          | .error f => .error f
          | .ok buf2 => .ok (_SHARDBUF_SUCCEED, buf2, size_add chunk_sz g.length)
        else (.ok (_SHARDBUF_SUCCEED, buf, chunk_sz) : Except Fault (Status × List Byte × Nat)))
        = .ok (_SHARDBUF_SUCCEED, bytes ++ g ++ userbuf.drop (chunk_sz + g.length),
            chunk_sz + g.length) := by
    intro buf hb
    subst hb
    by_cases hgl : g.length > 0
    · rw [if_pos hgl]
      have := @memcpy_after userbuf bytes g (by omega)
      rw [hlen] at this
      rw [this, hadd]
    · rw [if_neg hgl]
      have hg0 : g = [] := List.length_eq_zero.1 (by omega)
      subst hg0
      simp
  by_cases hc : chunk_sz > 0
  · rw [if_pos hc]
    unfold chunk_part at hbytes
    rw [if_pos hc] at hbytes
    cases hv : vec_at s.chunks (GET_CHUNK_INDEX chunk_loc s.chunk_log) with
    | error f => rw [hv] at hbytes; cases hbytes
    | ok chunk =>
      rw [hv] at hbytes
      simp only at hbytes ⊢
      rw [hbytes]
      simp only
      rw [memcpy_zero (by omega), hlen]
      simp only [hadd0]
      exact hfin _ rfl
  · rw [if_neg hc]
    have hc0 : chunk_sz = 0 := by omega
    subst hc0
    have hb0 : bytes = [] := List.length_eq_zero.1 hlen
    subst hb0
    simp only
    exact hfin _ (by simp)

theorem idx_lt_of_getElem? {α : Type} {l : List α} {i : Nat} {x : α} (h : l[i]? = some x) :
    i < l.length := by
  rcases List.getElem?_eq_some.1 h with ⟨h1, _⟩
  exact h1

theorem get_overflow (s : shard_buffer_t) (idx : Nat) (userbuf : List Byte)
    (userbuf_sz chunk_loc chunk_sz : Nat) (g : List Byte)
    (he : s.entries[idx]? = some (chunk_loc, chunk_sz)) (hg : s.growbuf[idx]? = some g)
    (hov : userbuf_sz < size_add chunk_sz g.length) :
    s.get idx userbuf userbuf_sz = .ok (_SHARDBUF_OVERFLOW, userbuf, userbuf_sz) := by
  have hidx := idx_lt_of_getElem? he
  unfold shard_buffer_t.get
  simp only [CHECK_OUT_RANGE, vec_at_ok he, vec_at_ok hg]
  rw [if_neg (by simpa using hidx), if_pos hov]

theorem get_chunk_part_error (s : shard_buffer_t) (idx : Nat) (userbuf : List Byte)
    (userbuf_sz chunk_loc chunk_sz : Nat) (g : List Byte) (f : Fault)
    (he : s.entries[idx]? = some (chunk_loc, chunk_sz)) (hg : s.growbuf[idx]? = some g)
    (hov : ¬ userbuf_sz < size_add chunk_sz g.length)
    (hbytes : chunk_part s chunk_loc chunk_sz = .error f) :
    s.get idx userbuf userbuf_sz = .error f := by
  have hidx := idx_lt_of_getElem? he
  unfold shard_buffer_t.get
  simp only [CHECK_OUT_RANGE, vec_at_ok he, vec_at_ok hg]
  rw [if_neg (by simpa using hidx), if_neg hov]
  unfold chunk_part at hbytes
  by_cases hc : chunk_sz > 0
  · rw [if_pos hc] at hbytes
    rw [if_pos hc]
    cases hv : vec_at s.chunks (GET_CHUNK_INDEX chunk_loc s.chunk_log) with
    | error f2 =>
      rw [hv] at hbytes
      simp only at hbytes ⊢
      injection hbytes with hbytes
      rw [hbytes]
    | ok chunk =>
      rw [hv] at hbytes
      simp only at hbytes ⊢
      rw [hbytes]
  · rw [if_neg hc] at hbytes
    cases hbytes

theorem get_overrun (s : shard_buffer_t) (idx : Nat) (userbuf : List Byte)
    (userbuf_sz chunk_loc chunk_sz : Nat) (g bytes : List Byte)
    (he : s.entries[idx]? = some (chunk_loc, chunk_sz)) (hg : s.growbuf[idx]? = some g)
    (hbytes : chunk_part s chunk_loc chunk_sz = .ok bytes)
    (hcap : chunk_sz + g.length ≤ userbuf_sz) (hfit : chunk_sz + g.length < SIZE_MOD)
    (hbuf : userbuf.length < chunk_sz + g.length) :
    s.get idx userbuf userbuf_sz = .error .userbuf_overrun := by
  have hidx := idx_lt_of_getElem? he
  have hlen := chunk_part_length hbytes
  have hadd : size_add chunk_sz g.length = chunk_sz + g.length := size_add_of_lt (by omega)
  have hadd0 : size_add 0 chunk_sz = chunk_sz := by
    rw [size_add_of_lt (by omega)]; simp
  unfold shard_buffer_t.get
  simp only [CHECK_OUT_RANGE, vec_at_ok he, vec_at_ok hg, hadd]
  rw [if_neg (by simpa using hidx), if_neg (by omega)]
  by_cases hc : chunk_sz > 0
  · rw [if_pos hc]
    unfold chunk_part at hbytes
    rw [if_pos hc] at hbytes
    cases hv : vec_at s.chunks (GET_CHUNK_INDEX chunk_loc s.chunk_log) with
    | error f => rw [hv] at hbytes; cases hbytes
    | ok chunk =>
      rw [hv] at hbytes
      simp only at hbytes ⊢
      rw [hbytes]
      simp only
      by_cases hb1 : bytes.length ≤ userbuf.length
      · rw [memcpy_zero hb1]
        simp only [hadd0]
        have hgl : g.length > 0 := by omega
        rw [if_pos hgl]
        have : memcpy (bytes ++ List.drop bytes.length userbuf) chunk_sz g
            = .error .userbuf_overrun := by
          unfold memcpy
          rw [if_neg (by simp; omega)]
        rw [this]
      · have : memcpy userbuf 0 bytes = .error .userbuf_overrun := by
          unfold memcpy
          rw [if_neg (by omega)]
        rw [this]
  · rw [if_neg hc]
    simp only
    have hgl : g.length > 0 := by omega
    rw [if_pos hgl]
    have : memcpy userbuf 0 g = .error .userbuf_overrun := by
      unfold memcpy
      rw [if_neg (by omega)]
    rw [this]

/-- What a successful `get` has done. -/
theorem get_succeed_inv (s : shard_buffer_t) (idx : Nat) (userbuf out : List Byte)
    (userbuf_sz n chunk_loc chunk_sz : Nat) (g : List Byte)
    (he : s.entries[idx]? = some (chunk_loc, chunk_sz)) (hg : s.growbuf[idx]? = some g)
    (hfit : chunk_sz + g.length < SIZE_MOD)
    (hget : s.get idx userbuf userbuf_sz = .ok (_SHARDBUF_SUCCEED, out, n)) :
    ∃ bytes, chunk_part s chunk_loc chunk_sz = .ok bytes ∧
      chunk_sz + g.length ≤ userbuf_sz ∧ chunk_sz + g.length ≤ userbuf.length ∧
      out = bytes ++ g ++ userbuf.drop (chunk_sz + g.length) ∧ n = chunk_sz + g.length := by
  have hadd : size_add chunk_sz g.length = chunk_sz + g.length := size_add_of_lt hfit
  by_cases hov : userbuf_sz < size_add chunk_sz g.length
  · rw [get_overflow s idx userbuf userbuf_sz chunk_loc chunk_sz g he hg hov] at hget
    cases hget
  · cases hcp : chunk_part s chunk_loc chunk_sz with
    | error f =>
      rw [get_chunk_part_error s idx userbuf userbuf_sz chunk_loc chunk_sz g f he hg hov hcp]
        at hget
      cases hget
    | ok bytes =>
      rw [hadd] at hov
      by_cases hbuf : chunk_sz + g.length ≤ userbuf.length
      · rw [get_of_chunk_part s idx userbuf userbuf_sz chunk_loc chunk_sz g bytes he hg hcp
          (by omega) hfit hbuf] at hget
        injection hget with hget
        injection hget with _ hget
        injection hget with h1 h2
        exact ⟨bytes, rfl, by omega, hbuf, h1.symm, h2.symm⟩
      · rw [get_overrun s idx userbuf userbuf_sz chunk_loc chunk_sz g bytes he hg hcp
          (by omega) hfit (by omega)] at hget
        cases hget

/-! ## Reading an entry -/

theorem chunk_part_zero (s : shard_buffer_t) (chunk_loc : Nat) :
    chunk_part s chunk_loc 0 = .ok [] := by
  simp [chunk_part]

theorem chunk_part_inside {s : shard_buffer_t} {chunk_loc chunk_sz : Nat} {chunk : List Byte}
    (hc : s.chunks[GET_CHUNK_INDEX chunk_loc s.chunk_log]? = some chunk)
    (hspan : GET_CHUNK_OFFSET chunk_loc s.chunk_log + chunk_sz ≤ chunk.length) :
    chunk_part s chunk_loc chunk_sz
      = .ok ((chunk.drop (GET_CHUNK_OFFSET chunk_loc s.chunk_log)).take chunk_sz) := by
  unfold chunk_part
  by_cases h : chunk_sz > 0
  · rw [if_pos h, vec_at_ok hc]
    exact string_read_inside hspan
  · rw [if_neg h]
    have : chunk_sz = 0 := by omega
    subst this
    simp

/-- C1. For every store (entries and overlays paired), every valid index `idx`
and every byte string `b`: `set(idx, b)` succeeds, and `get(idx)` called right
after it with a buffer whose capacity is at least `|b|` succeeds, reports `|b|`
bytes written and writes exactly `b` at the start of the buffer. -/
theorem get_after_set (s : shard_buffer_t) (idx : Nat) (b userbuf : List Byte)
    (userbuf_sz : Nat)
    (hidx : idx < s.entries.length) (hpair : s.entries.length = s.growbuf.length)
    (hcap : b.length ≤ userbuf_sz) (hbuf : userbuf_sz ≤ userbuf.length)
    (hsz : userbuf_sz < SIZE_MOD) :
    ∃ s2, s.set idx b = .ok (_SHARDBUF_SUCCEED, s2) ∧
      s2.get idx userbuf userbuf_sz
        = .ok (_SHARDBUF_SUCCEED, b ++ userbuf.drop b.length, b.length) := by
  have hg : idx < s.growbuf.length := by omega
  refine ⟨{ s with entries := s.entries.set idx (0, 0), growbuf := s.growbuf.set idx b }, ?_, ?_⟩
  · unfold shard_buffer_t.set
    rw [if_neg (by simpa [CHECK_OUT_RANGE] using hidx),
      vec_at_ok (List.getElem?_eq_getElem hg)]
  · have h := get_of_chunk_part
      { s with entries := s.entries.set idx (0, 0), growbuf := s.growbuf.set idx b }
      idx userbuf userbuf_sz 0 0 b []
      (by simp [List.getElem?_set, hidx]) (by simp [List.getElem?_set, hg])
      (chunk_part_zero _ _) (by simpa using hcap) (by simp; omega) (by simp; omega)
    simpa using h

/-- C1, at the store with the one entry "xyz": `set(0, "abc")`, then `get(0)`
into a buffer of four bytes. -/
theorem get_after_set_witness :
    (0 < (shard_buffer_t.mk 4 [] [(0, 0)] [[120, 121, 122]]).entries.length ∧
      (shard_buffer_t.mk 4 [] [(0, 0)] [[120, 121, 122]]).entries.length
        = (shard_buffer_t.mk 4 [] [(0, 0)] [[120, 121, 122]]).growbuf.length ∧
      ([97, 98, 99] : List Byte).length ≤ 4 ∧ 4 ≤ ([0, 0, 0, 0] : List Byte).length ∧
      4 < SIZE_MOD) ∧
    ∃ s2, (shard_buffer_t.mk 4 [] [(0, 0)] [[120, 121, 122]]).set 0 [97, 98, 99]
        = .ok (_SHARDBUF_SUCCEED, s2) ∧
      s2.get 0 [0, 0, 0, 0] 4
        = .ok (_SHARDBUF_SUCCEED, [97, 98, 99] ++ ([0, 0, 0, 0] : List Byte).drop 3, 3) :=
  ⟨by decide,
    get_after_set (shard_buffer_t.mk 4 [] [(0, 0)] [[120, 121, 122]]) 0 [97, 98, 99]
      [0, 0, 0, 0] 4 (by decide) (by decide) (by decide) (by decide) (by decide)⟩

theorem get_inside_eq (s : shard_buffer_t) (idx : Nat) (userbuf : List Byte)
    (userbuf_sz chunk_loc chunk_sz : Nat) (g chunk : List Byte)
    (he : s.entries[idx]? = some (chunk_loc, chunk_sz)) (hg : s.growbuf[idx]? = some g)
    (hc : s.chunks[GET_CHUNK_INDEX chunk_loc s.chunk_log]? = some chunk)
    (hspan : GET_CHUNK_OFFSET chunk_loc s.chunk_log + chunk_sz ≤ chunk.length)
    (hcap : chunk_sz + g.length ≤ userbuf_sz) (hbuf : userbuf_sz ≤ userbuf.length)
    (hsz : userbuf_sz < SIZE_MOD) :
    s.get idx userbuf userbuf_sz
      = .ok (_SHARDBUF_SUCCEED,
          (chunk.drop (GET_CHUNK_OFFSET chunk_loc s.chunk_log)).take chunk_sz ++ g
            ++ userbuf.drop (chunk_sz + g.length),
          chunk_sz + g.length) :=
  get_of_chunk_part s idx userbuf userbuf_sz chunk_loc chunk_sz g _ he hg
    (chunk_part_inside hc hspan) hcap (by omega) (by omega)

/-- C2. For every store in which entry `idx` has an overlay and its chunk span
lies inside its chunk buffer, and every capacity at least the entry's logical
length: `get(idx)` succeeds, writes the `chunk_sz` bytes of the chunk
`GET_CHUNK_INDEX chunk_loc` from offset `GET_CHUNK_OFFSET chunk_loc` on,
followed at once by the overlay bytes, and reports `chunk_sz + |overlay|`
bytes written. -/
theorem get_chunk_then_overlay (s : shard_buffer_t) (idx : Nat) (userbuf : List Byte)
    (userbuf_sz chunk_loc chunk_sz : Nat) (g chunk : List Byte)
    (he : s.entries[idx]? = some (chunk_loc, chunk_sz)) (hg : s.growbuf[idx]? = some g)
    (hc : s.chunks[GET_CHUNK_INDEX chunk_loc s.chunk_log]? = some chunk)
    (hspan : GET_CHUNK_OFFSET chunk_loc s.chunk_log + chunk_sz ≤ chunk.length)
    (hcap : chunk_sz + g.length ≤ userbuf_sz) (hbuf : userbuf_sz ≤ userbuf.length)
    (hsz : userbuf_sz < SIZE_MOD) :
    s.get idx userbuf userbuf_sz
      = .ok (_SHARDBUF_SUCCEED,
          (chunk.drop (GET_CHUNK_OFFSET chunk_loc s.chunk_log)).take chunk_sz ++ g
            ++ userbuf.drop (chunk_sz + g.length),
          chunk_sz + g.length) :=
  get_of_chunk_part s idx userbuf userbuf_sz chunk_loc chunk_sz g _ he hg
    (chunk_part_inside hc hspan) hcap (by omega) (by omega)

/-- C2, at a store whose entry 0 is the two bytes at offset 1 of chunk 1 and
the overlay "ef". -/
theorem get_chunk_then_overlay_witness :
    ((shard_buffer_t.mk 4 [[], [97, 98, 99, 100]] [(17, 2)] [[101, 102]]).entries[0]?
        = some (17, 2) ∧
      (shard_buffer_t.mk 4 [[], [97, 98, 99, 100]] [(17, 2)] [[101, 102]]).growbuf[0]?
        = some [101, 102] ∧
      (shard_buffer_t.mk 4 [[], [97, 98, 99, 100]] [(17, 2)] [[101, 102]]).chunks[
        GET_CHUNK_INDEX 17 4]? = some [97, 98, 99, 100] ∧
      GET_CHUNK_OFFSET 17 4 + 2 ≤ ([97, 98, 99, 100] : List Byte).length ∧
      2 + ([101, 102] : List Byte).length ≤ 5 ∧ 5 ≤ ([0, 0, 0, 0, 0, 0] : List Byte).length ∧
      5 < SIZE_MOD) ∧
    (shard_buffer_t.mk 4 [[], [97, 98, 99, 100]] [(17, 2)] [[101, 102]]).get 0
        [0, 0, 0, 0, 0, 0] 5
      = .ok (_SHARDBUF_SUCCEED, [98, 99, 101, 102, 0, 0], 4) :=
  ⟨by decide,
    get_chunk_then_overlay (shard_buffer_t.mk 4 [[], [97, 98, 99, 100]] [(17, 2)] [[101, 102]])
      0 [0, 0, 0, 0, 0, 0] 5 17 2 [101, 102] [97, 98, 99, 100]
      (by decide) (by decide) (by decide) (by decide) (by decide) (by decide) (by decide)⟩

/-- C10. For every store, every valid index `idx` (with its overlay `g`) whose
logical length `chunk_sz + |g|` is a `size_t` value, and every capacity:
`get(idx)` returns `_SHARDBUF_OVERFLOW` if and only if `chunk_sz + |g|` exceeds
the capacity, and in that case the buffer and the capacity come back as they
were passed. -/
theorem get_overflow_iff (s : shard_buffer_t) (idx : Nat) (userbuf : List Byte)
    (userbuf_sz chunk_loc chunk_sz : Nat) (g : List Byte)
    (he : s.entries[idx]? = some (chunk_loc, chunk_sz)) (hg : s.growbuf[idx]? = some g)
    (hfit : chunk_sz + g.length < SIZE_MOD) :
    ((∃ out n, s.get idx userbuf userbuf_sz = .ok (_SHARDBUF_OVERFLOW, out, n))
        ↔ userbuf_sz < chunk_sz + g.length) ∧
      (userbuf_sz < chunk_sz + g.length →
        s.get idx userbuf userbuf_sz = .ok (_SHARDBUF_OVERFLOW, userbuf, userbuf_sz)) := by
  have hadd : size_add chunk_sz g.length = chunk_sz + g.length := size_add_of_lt hfit
  have hback : userbuf_sz < chunk_sz + g.length →
      s.get idx userbuf userbuf_sz = .ok (_SHARDBUF_OVERFLOW, userbuf, userbuf_sz) := by
    intro h
    exact get_overflow s idx userbuf userbuf_sz chunk_loc chunk_sz g he hg (by omega)
  refine ⟨⟨?_, fun h => ⟨userbuf, userbuf_sz, hback h⟩⟩, hback⟩
  rintro ⟨out, n, hget⟩
  by_contra hov
  cases hcp : chunk_part s chunk_loc chunk_sz with
  | error f =>
    rw [get_chunk_part_error s idx userbuf userbuf_sz chunk_loc chunk_sz g f he hg
      (by omega) hcp] at hget
    cases hget
  | ok bytes =>
    by_cases hbuf : chunk_sz + g.length ≤ userbuf.length
    · rw [get_of_chunk_part s idx userbuf userbuf_sz chunk_loc chunk_sz g bytes he hg hcp
        (by omega) hfit hbuf] at hget
      injection hget with hget
      injection hget with hget _
      cases hget
    · rw [get_overrun s idx userbuf userbuf_sz chunk_loc chunk_sz g bytes he hg hcp
        (by omega) hfit (by omega)] at hget
      cases hget

/-- C10, at an entry of logical length 5 (three chunk bytes, two overlay
bytes) read with capacity 2. -/
theorem get_overflow_iff_witness :
    ((shard_buffer_t.mk 4 [[97, 98, 99]] [(0, 3)] [[100, 101]]).entries[0]? = some (0, 3) ∧
      (shard_buffer_t.mk 4 [[97, 98, 99]] [(0, 3)] [[100, 101]]).growbuf[0]?
        = some [100, 101] ∧
      3 + ([100, 101] : List Byte).length < SIZE_MOD) ∧
    (((∃ out n, (shard_buffer_t.mk 4 [[97, 98, 99]] [(0, 3)] [[100, 101]]).get 0 [7, 7] 2
          = .ok (_SHARDBUF_OVERFLOW, out, n))
        ↔ 2 < 3 + ([100, 101] : List Byte).length) ∧
      (2 < 3 + ([100, 101] : List Byte).length →
        (shard_buffer_t.mk 4 [[97, 98, 99]] [(0, 3)] [[100, 101]]).get 0 [7, 7] 2
          = .ok (_SHARDBUF_OVERFLOW, [7, 7], 2))) :=
  ⟨by decide,
    get_overflow_iff (shard_buffer_t.mk 4 [[97, 98, 99]] [(0, 3)] [[100, 101]]) 0 [7, 7] 2 0 3
      [100, 101] (by decide) (by decide) (by decide)⟩

/-! ## Appending -/

theorem app_ok (s : shard_buffer_t) (idx : Nat) (b g : List Byte)
    (hidx : idx < s.entries.length) (hg : s.growbuf[idx]? = some g) :
    s.app idx b
      = .ok (_SHARDBUF_SUCCEED, { s with growbuf := s.growbuf.set idx (g ++ b) }) := by
  unfold shard_buffer_t.app
  rw [if_neg (by simpa [CHECK_OUT_RANGE] using hidx), vec_at_ok hg]

theorem chunk_part_congr (s s2 : shard_buffer_t) (chunk_loc chunk_sz : Nat)
    (h1 : s2.chunks = s.chunks) (h2 : s2.chunk_log = s.chunk_log) :
    chunk_part s2 chunk_loc chunk_sz = chunk_part s chunk_loc chunk_sz := by
  unfold chunk_part
  rw [h1, h2]

theorem app_then_get (s : shard_buffer_t) (idx : Nat) (b userbuf0 out0 userbuf : List Byte)
    (userbuf_sz0 n0 userbuf_sz chunk_loc chunk_sz : Nat) (g : List Byte)
    (he : s.entries[idx]? = some (chunk_loc, chunk_sz)) (hg : s.growbuf[idx]? = some g)
    (hget : s.get idx userbuf0 userbuf_sz0 = .ok (_SHARDBUF_SUCCEED, out0, n0))
    (hcap : chunk_sz + g.length + b.length ≤ userbuf_sz) (hbuf : userbuf_sz ≤ userbuf.length)
    (hsz : userbuf_sz < SIZE_MOD) :
    ∃ s2, s.app idx b = .ok (_SHARDBUF_SUCCEED, s2) ∧
      s2.get idx userbuf userbuf_sz
        = .ok (_SHARDBUF_SUCCEED, out0.take n0 ++ b ++ userbuf.drop (n0 + b.length),
            n0 + b.length) := by
  have hidx := idx_lt_of_getElem? he
  have hgl := idx_lt_of_getElem? hg
  obtain ⟨bytes, hcp, _, _, hout, hn⟩ :=
    get_succeed_inv s idx userbuf0 out0 userbuf_sz0 n0 chunk_loc chunk_sz g he hg (by omega) hget
  have hlen := chunk_part_length hcp
  refine ⟨_, app_ok s idx b g hidx hg, ?_⟩
  have h := get_of_chunk_part { s with growbuf := s.growbuf.set idx (g ++ b) } idx userbuf
    userbuf_sz chunk_loc chunk_sz (g ++ b) bytes he (by simp [List.getElem?_set, hgl])
    ((chunk_part_congr s _ chunk_loc chunk_sz rfl rfl).trans hcp)
    (by simp; omega) (by simp; omega) (by simp; omega)
  rw [h, hout, hn]
  have htake : List.take (chunk_sz + g.length) (bytes ++ g ++ List.drop (chunk_sz + g.length) userbuf0)
      = bytes ++ g := by
    rw [List.take_append_of_le_length (by simp; omega)]
    exact List.take_of_length_le (by simp; omega)
  rw [htake]
  simp [Nat.add_assoc]

theorem app_all_ok (idx : Nat) (bs : List (List Byte)) :
    ∀ (s : shard_buffer_t) (g : List Byte), idx < s.entries.length →
      s.growbuf[idx]? = some g →
      ∃ s2, app_all s idx bs = .ok s2 ∧ s2.entries = s.entries ∧ s2.chunks = s.chunks ∧
        s2.chunk_log = s.chunk_log ∧ s2.growbuf[idx]? = some (g ++ bs.flatten) := by
  induction bs with
  | nil =>
    intro s g _ hg
    exact ⟨s, rfl, rfl, rfl, rfl, by simpa using hg⟩
  | cons b bs ih =>
    intro s g hidx hg
    have hgl := idx_lt_of_getElem? hg
    obtain ⟨s2, h1, h2, h3, h4, h5⟩ :=
      ih { s with growbuf := s.growbuf.set idx (g ++ b) } (g ++ b) hidx
        (by simp [List.getElem?_set, hgl])
    refine ⟨s2, ?_, h2, h3, h4, by simpa using h5⟩
    unfold app_all
    rw [app_ok s idx b g hidx hg]
    exact h1

theorem get_after_push_back_app_all (s : shard_buffer_t) (b0 : List Byte)
    (bs : List (List Byte)) (userbuf : List Byte) (userbuf_sz : Nat)
    (hpair : s.entries.length = s.growbuf.length)
    (hcap : (b0 ++ bs.flatten).length ≤ userbuf_sz) (hbuf : userbuf_sz ≤ userbuf.length)
    (hsz : userbuf_sz < SIZE_MOD) :
    ∃ s2, app_all (s.push_back b0).2 s.entries.length bs = .ok s2 ∧
      s2.get s.entries.length userbuf userbuf_sz
        = .ok (_SHARDBUF_SUCCEED,
            (b0 ++ bs.flatten) ++ userbuf.drop (b0 ++ bs.flatten).length,
            (b0 ++ bs.flatten).length) := by
  obtain ⟨s2, h1, h2, _, _, h5⟩ :=
    app_all_ok s.entries.length bs (s.push_back b0).2 b0 (by simp [push_back])
      (by simp [push_back, hpair])
  refine ⟨s2, h1, ?_⟩
  have h := get_of_chunk_part s2 s.entries.length userbuf userbuf_sz 0 0 (b0 ++ bs.flatten) []
    (by rw [h2]; simp [push_back]) h5 (chunk_part_zero _ _) (by omega) (by omega) (by omega)
  simpa using h

/-- C3. (1) For every store, every valid index `idx` (entry `(chunk_loc,
chunk_sz)`, overlay `g`) and every byte string `b`: when `get(idx)` succeeded
with `n0` bytes, `app(idx, b)` succeeds and `get(idx)` after it, into a buffer
that holds the longer content, writes those `n0` bytes followed by `b` and
reports `n0 + |b|`.  (2) After `push_back(b0)` on a paired store with `n`
entries and `app(n, b1)`, ..., `app(n, bk)`, `get(n)` writes
`b0 ++ b1 ++ ... ++ bk`.  (3) `push_back("hello ")`, `app(0, "world!")`,
`get(0)` gives the 12 bytes "hello world!". -/
theorem get_after_app :
    (∀ (s : shard_buffer_t) (idx : Nat) (b userbuf0 out0 userbuf : List Byte)
        (userbuf_sz0 n0 userbuf_sz chunk_loc chunk_sz : Nat) (g : List Byte),
        s.entries[idx]? = some (chunk_loc, chunk_sz) → s.growbuf[idx]? = some g →
        s.get idx userbuf0 userbuf_sz0 = .ok (_SHARDBUF_SUCCEED, out0, n0) →
        chunk_sz + g.length + b.length ≤ userbuf_sz → userbuf_sz ≤ userbuf.length →
        userbuf_sz < SIZE_MOD →
        ∃ s2, s.app idx b = .ok (_SHARDBUF_SUCCEED, s2) ∧
          s2.get idx userbuf userbuf_sz
            = .ok (_SHARDBUF_SUCCEED, out0.take n0 ++ b ++ userbuf.drop (n0 + b.length),
                n0 + b.length)) ∧
    (∀ (s : shard_buffer_t) (b0 : List Byte) (bs : List (List Byte)) (userbuf : List Byte)
        (userbuf_sz : Nat),
        s.entries.length = s.growbuf.length →
        (b0 ++ bs.flatten).length ≤ userbuf_sz → userbuf_sz ≤ userbuf.length →
        userbuf_sz < SIZE_MOD →
        ∃ s2, app_all (s.push_back b0).2 s.entries.length bs = .ok s2 ∧
          s2.get s.entries.length userbuf userbuf_sz
            = .ok (_SHARDBUF_SUCCEED,
                (b0 ++ bs.flatten) ++ userbuf.drop (b0 ++ bs.flatten).length,
                (b0 ++ bs.flatten).length)) ∧
    (∀ (chunk_log : Nat),
        ∃ s2, ((shard_buffer_t.mk chunk_log [] [] []).push_back
              [104, 101, 108, 108, 111, 32]).2.app 0 [119, 111, 114, 108, 100, 33]
            = .ok (_SHARDBUF_SUCCEED, s2) ∧
          s2.get 0 (List.replicate 16 0) 16
            = .ok (_SHARDBUF_SUCCEED,
                [104, 101, 108, 108, 111, 32, 119, 111, 114, 108, 100, 33, 0, 0, 0, 0], 12)) := by
  refine ⟨?_, ?_, ?_⟩
  · intro s idx b userbuf0 out0 userbuf userbuf_sz0 n0 userbuf_sz chunk_loc chunk_sz g
      he hg hget hcap hbuf hsz
    exact app_then_get s idx b userbuf0 out0 userbuf userbuf_sz0 n0 userbuf_sz chunk_loc
      chunk_sz g he hg hget hcap hbuf hsz
  · intro s b0 bs userbuf userbuf_sz hpair hcap hbuf hsz
    exact get_after_push_back_app_all s b0 bs userbuf userbuf_sz hpair hcap hbuf hsz
  · intro chunk_log
    exact ⟨_, rfl, rfl⟩

/-- C3, part (1) at an entry with chunk bytes "ab" and overlay "c", to which
"de" is appended. -/
theorem get_after_app_witness :
    ((shard_buffer_t.mk 4 [[97, 98]] [(0, 2)] [[99]]).entries[0]? = some (0, 2) ∧
      (shard_buffer_t.mk 4 [[97, 98]] [(0, 2)] [[99]]).growbuf[0]? = some [99] ∧
      (shard_buffer_t.mk 4 [[97, 98]] [(0, 2)] [[99]]).get 0 [0, 0, 0, 0] 4
        = .ok (_SHARDBUF_SUCCEED, [97, 98, 99, 0], 3) ∧
      2 + ([99] : List Byte).length + ([100, 101] : List Byte).length ≤ 6 ∧
      6 ≤ ([0, 0, 0, 0, 0, 0] : List Byte).length ∧ 6 < SIZE_MOD) ∧
    ∃ s2, (shard_buffer_t.mk 4 [[97, 98]] [(0, 2)] [[99]]).app 0 [100, 101]
        = .ok (_SHARDBUF_SUCCEED, s2) ∧
      s2.get 0 [0, 0, 0, 0, 0, 0] 6
        = .ok (_SHARDBUF_SUCCEED,
            ([97, 98, 99, 0] : List Byte).take 3 ++ [100, 101]
              ++ ([0, 0, 0, 0, 0, 0] : List Byte).drop (3 + ([100, 101] : List Byte).length),
            3 + ([100, 101] : List Byte).length) :=
  ⟨by decide,
    get_after_app.1 (shard_buffer_t.mk 4 [[97, 98]] [(0, 2)] [[99]]) 0 [100, 101] [0, 0, 0, 0]
      [97, 98, 99, 0] [0, 0, 0, 0, 0, 0] 4 3 6 0 2 [99]
      (by decide) (by decide) (by decide) (by decide) (by decide) (by decide)⟩

/-! ## Deleting a range -/

theorem string_erase_inside {str : List Byte} {pos n : Nat} (h : pos + n ≤ str.length) :
    string_erase str pos n = .ok (str.take pos ++ str.drop (pos + n)) := by
  unfold string_erase
  rw [if_neg (by omega), Nat.min_eq_left (by omega)]

theorem erase_window {α : Type} (l : List α) (off c offset sz : Nat)
    (hspan : off + c ≤ l.length) (hoff : offset + sz ≤ c) :
    ((l.take (off + offset) ++ l.drop (off + offset + sz)).drop off).take (c - sz)
      = ((l.drop off).take c).take offset ++ ((l.drop off).take c).drop (offset + sz) := by
  apply List.ext_getElem
  · simp
    omega
  · intro i h1 h2
    simp only [List.length_take, List.length_drop, List.length_append] at h1 h2
    simp only [List.getElem_take, List.getElem_drop, List.getElem_append]
    have e1 : (List.take (off + offset) l).length = off + offset := by
      simp; omega
    have e2 : (List.take offset (List.take c (List.drop off l))).length = offset := by
      simp; omega
    simp only [e1, e2]
    by_cases hi : i < offset
    · rw [dif_pos (by omega), dif_pos hi]
    · rw [dif_neg (by omega), dif_neg hi]
      congr 1
      omega


theorem del_range_in_chunk (s : shard_buffer_t) (idx offset sz chunk_loc chunk_sz : Nat)
    (chunk : List Byte)
    (he : s.entries[idx]? = some (chunk_loc, chunk_sz))
    (hc : s.chunks[GET_CHUNK_INDEX chunk_loc s.chunk_log]? = some chunk)
    (hspan : GET_CHUNK_OFFSET chunk_loc s.chunk_log + chunk_sz ≤ chunk.length)
    (hoff : offset + sz ≤ chunk_sz) (hlen : chunk.length < SIZE_MOD) :
    s.del_range idx offset sz
      = .ok (_SHARDBUF_SUCCEED,
          { s with
            chunks := s.chunks.set (GET_CHUNK_INDEX chunk_loc s.chunk_log)
              (chunk.take (GET_CHUNK_OFFSET chunk_loc s.chunk_log + offset)
                ++ chunk.drop (GET_CHUNK_OFFSET chunk_loc s.chunk_log + offset + sz)),
            entries := s.entries.set idx (chunk_loc, chunk_sz - sz) }) := by
  have hidx := idx_lt_of_getElem? he
  unfold shard_buffer_t.del_range
  simp only [CHECK_OUT_RANGE, vec_at_ok he, vec_at_ok hc]
  rw [if_neg (by simpa using hidx), size_add_of_lt (by omega), if_pos hoff,
    size_add_of_lt (by omega), string_erase_inside (by omega),
    size_sub_of_le (by omega) (by omega)]

/-- C7. Chunk-only case of `del(idx, offset, sz)`: for every store in which
entry `idx` = `(chunk_loc, chunk_sz)` has an overlay `g` and its chunk span
lies inside its chunk buffer, and every `offset`, `sz` with
`offset + sz ≤ chunk_sz`: the call succeeds, the entry becomes
`(chunk_loc, chunk_sz - sz)`, the overlays are unchanged, and `get(idx)`, which
before the call gave the logical content `orig` (chunk bytes, then overlay),
gives afterwards `orig` without its bytes `[offset, offset + sz)`. -/
theorem del_range_chunk_only (s : shard_buffer_t) (idx offset sz : Nat) (userbuf : List Byte)
    (userbuf_sz chunk_loc chunk_sz : Nat) (g chunk : List Byte)
    (he : s.entries[idx]? = some (chunk_loc, chunk_sz)) (hg : s.growbuf[idx]? = some g)
    (hc : s.chunks[GET_CHUNK_INDEX chunk_loc s.chunk_log]? = some chunk)
    (hspan : GET_CHUNK_OFFSET chunk_loc s.chunk_log + chunk_sz ≤ chunk.length)
    (hoff : offset + sz ≤ chunk_sz) (hlen : chunk.length < SIZE_MOD)
    (hcap : chunk_sz + g.length ≤ userbuf_sz) (hbuf : userbuf_sz ≤ userbuf.length)
    (hsz : userbuf_sz < SIZE_MOD) :
    ∃ s2, s.del_range idx offset sz = .ok (_SHARDBUF_SUCCEED, s2) ∧
      s2.entries[idx]? = some (chunk_loc, chunk_sz - sz) ∧
      s2.growbuf = s.growbuf ∧
      s.get idx userbuf userbuf_sz
        = .ok (_SHARDBUF_SUCCEED,
            ((chunk.drop (GET_CHUNK_OFFSET chunk_loc s.chunk_log)).take chunk_sz ++ g)
              ++ userbuf.drop (chunk_sz + g.length),
            chunk_sz + g.length) ∧
      s2.get idx userbuf userbuf_sz
        = .ok (_SHARDBUF_SUCCEED,
            (((chunk.drop (GET_CHUNK_OFFSET chunk_loc s.chunk_log)).take chunk_sz ++ g).take offset
              ++ ((chunk.drop (GET_CHUNK_OFFSET chunk_loc s.chunk_log)).take chunk_sz ++ g).drop
                (offset + sz))
              ++ userbuf.drop (chunk_sz + g.length - sz),
            chunk_sz + g.length - sz) := by
  have hidx := idx_lt_of_getElem? he
  have hci := idx_lt_of_getElem? hc
  refine ⟨_, del_range_in_chunk s idx offset sz chunk_loc chunk_sz chunk he hc hspan hoff hlen,
    by simp [List.getElem?_set, hidx], rfl,
    get_inside_eq s idx userbuf userbuf_sz chunk_loc chunk_sz g chunk he hg hc hspan
      hcap hbuf hsz, ?_⟩
  have h := get_inside_eq
    { s with
      chunks := s.chunks.set (GET_CHUNK_INDEX chunk_loc s.chunk_log)
        (chunk.take (GET_CHUNK_OFFSET chunk_loc s.chunk_log + offset)
          ++ chunk.drop (GET_CHUNK_OFFSET chunk_loc s.chunk_log + offset + sz)),
      entries := s.entries.set idx (chunk_loc, chunk_sz - sz) }
    idx userbuf userbuf_sz chunk_loc (chunk_sz - sz) g
    (chunk.take (GET_CHUNK_OFFSET chunk_loc s.chunk_log + offset)
      ++ chunk.drop (GET_CHUNK_OFFSET chunk_loc s.chunk_log + offset + sz))
    (by simp [List.getElem?_set, hidx]) hg (by simp [List.getElem?_set, hci])
    (by simp; omega) (by omega) hbuf hsz
  rw [h]
  have hl : ((chunk.drop (GET_CHUNK_OFFSET chunk_loc s.chunk_log)).take chunk_sz).length
      = chunk_sz := by
    simp; omega
  have hw := erase_window chunk (GET_CHUNK_OFFSET chunk_loc s.chunk_log) chunk_sz offset sz
    hspan hoff
  simp only at hw ⊢
  rw [hw, List.take_append_of_le_length (by omega), List.drop_append_of_le_length (by omega)]
  have e : chunk_sz - sz + g.length = chunk_sz + g.length - sz := by omega
  rw [e]
  simp

/-- C7, at the entry "abcd" ++ "ef" (chunk bytes at offset 1 of chunk 0), from
which the bytes [1, 3) are deleted: "adef" remains. -/
theorem del_range_chunk_only_witness :
    ((shard_buffer_t.mk 4 [[120, 97, 98, 99, 100]] [(1, 4)] [[101, 102]]).entries[0]?
        = some (1, 4) ∧
      (shard_buffer_t.mk 4 [[120, 97, 98, 99, 100]] [(1, 4)] [[101, 102]]).growbuf[0]?
        = some [101, 102] ∧
      (shard_buffer_t.mk 4 [[120, 97, 98, 99, 100]] [(1, 4)] [[101, 102]]).chunks[
        GET_CHUNK_INDEX 1 4]? = some [120, 97, 98, 99, 100] ∧
      GET_CHUNK_OFFSET 1 4 + 4 ≤ ([120, 97, 98, 99, 100] : List Byte).length ∧
      1 + 2 ≤ 4 ∧ ([120, 97, 98, 99, 100] : List Byte).length < SIZE_MOD ∧
      4 + ([101, 102] : List Byte).length ≤ 8 ∧
      8 ≤ ([0, 0, 0, 0, 0, 0, 0, 0] : List Byte).length ∧ 8 < SIZE_MOD) ∧
    ∃ s2, (shard_buffer_t.mk 4 [[120, 97, 98, 99, 100]] [(1, 4)] [[101, 102]]).del_range 0 1 2
        = .ok (_SHARDBUF_SUCCEED, s2) ∧
      s2.entries[0]? = some (1, 4 - 2) ∧
      s2.growbuf = [[101, 102]] ∧
      (shard_buffer_t.mk 4 [[120, 97, 98, 99, 100]] [(1, 4)] [[101, 102]]).get 0
          [0, 0, 0, 0, 0, 0, 0, 0] 8
        = .ok (_SHARDBUF_SUCCEED, [97, 98, 99, 100, 101, 102, 0, 0], 6) ∧
      s2.get 0 [0, 0, 0, 0, 0, 0, 0, 0] 8
        = .ok (_SHARDBUF_SUCCEED, [97, 100, 101, 102, 0, 0, 0, 0], 4) :=
  ⟨by decide,
    del_range_chunk_only (shard_buffer_t.mk 4 [[120, 97, 98, 99, 100]] [(1, 4)] [[101, 102]])
      0 1 2 [0, 0, 0, 0, 0, 0, 0, 0] 8 1 4 [101, 102] [120, 97, 98, 99, 100]
      (by decide) (by decide) (by decide) (by decide) (by decide) (by decide) (by decide)
      (by decide) (by decide)⟩

/-- C5 (the code at a failing input). Spanning case of `del(idx, offset, sz)`:
on the entry "abcd" ++ "ef" (chunk span inside its chunk), deleting the bytes
[2, 5) should leave "abf".  The call erases "cd" from the chunk and "e" from
the overlay but leaves the entry at `(0, 4)`: `get(0)` afterwards reads four
chunk bytes where two remain.  With two more bytes "XY" behind the span in the
chunk, `get(0)` returns the five bytes "abXYf". -/
theorem del_range_spanning_keeps_chunk_sz :
    (span_inside (shard_buffer_t.mk 4 [[97, 98, 99, 100]] [(0, 4)] [[101, 102]]) 0 = true ∧
      2 < 4 ∧ 4 < 2 + 3 ∧ 2 + 3 ≤ 4 + ([101, 102] : List Byte).length ∧
      (shard_buffer_t.mk 4 [[97, 98, 99, 100]] [(0, 4)] [[101, 102]]).get 0
          [0, 0, 0, 0, 0, 0, 0, 0] 8
        = .ok (_SHARDBUF_SUCCEED, [97, 98, 99, 100, 101, 102, 0, 0], 6) ∧
      (shard_buffer_t.mk 4 [[97, 98, 99, 100]] [(0, 4)] [[101, 102]]).del_range 0 2 3
        = .ok (_SHARDBUF_SUCCEED, shard_buffer_t.mk 4 [[97, 98]] [(0, 4)] [[102]]) ∧
      (shard_buffer_t.mk 4 [[97, 98]] [(0, 4)] [[102]]).get 0 [0, 0, 0, 0, 0, 0, 0, 0] 8
        = .error .string_read) ∧
    (span_inside (shard_buffer_t.mk 4 [[97, 98, 99, 100, 88, 89]] [(0, 4)] [[101, 102]]) 0
        = true ∧
      (shard_buffer_t.mk 4 [[97, 98, 99, 100, 88, 89]] [(0, 4)] [[101, 102]]).get 0
          [0, 0, 0, 0, 0, 0, 0, 0] 8
        = .ok (_SHARDBUF_SUCCEED, [97, 98, 99, 100, 101, 102, 0, 0], 6) ∧
      (shard_buffer_t.mk 4 [[97, 98, 99, 100, 88, 89]] [(0, 4)] [[101, 102]]).del_range 0 2 3
        = .ok (_SHARDBUF_SUCCEED, shard_buffer_t.mk 4 [[97, 98, 88, 89]] [(0, 4)] [[102]]) ∧
      (shard_buffer_t.mk 4 [[97, 98, 88, 89]] [(0, 4)] [[102]]).get 0
          [0, 0, 0, 0, 0, 0, 0, 0] 8
        = .ok (_SHARDBUF_SUCCEED, [97, 98, 88, 89, 102, 0, 0, 0], 5)) := by
  decide

/-- C6 (the code at a failing input). Overlay-only case of
`del(idx, offset, sz)`: after `push_back("abc")`, `del(0, 1, 1)` leaves "ac",
but `del(0, 1, 2)`, whose range ends exactly at the end of the overlay, changes
nothing: `get(0)` still returns "abc" where "a" is expected. -/
theorem del_range_overlay_end_is_noop :
    ((shard_buffer_t.mk 4 [] [] []).push_back [97, 98, 99]).2
        = shard_buffer_t.mk 4 [] [(0, 0)] [[97, 98, 99]] ∧
      (shard_buffer_t.mk 4 [] [(0, 0)] [[97, 98, 99]]).del_range 0 1 1
        = .ok (_SHARDBUF_SUCCEED, shard_buffer_t.mk 4 [] [(0, 0)] [[97, 99]]) ∧
      (shard_buffer_t.mk 4 [] [(0, 0)] [[97, 99]]).get 0 [0, 0, 0, 0] 4
        = .ok (_SHARDBUF_SUCCEED, [97, 99, 0, 0], 2) ∧
      (1 ≥ 0 ∧ (1 - 0) + 2 ≤ ([97, 98, 99] : List Byte).length) ∧
      (shard_buffer_t.mk 4 [] [(0, 0)] [[97, 98, 99]]).del_range 0 1 2
        = .ok (_SHARDBUF_SUCCEED, shard_buffer_t.mk 4 [] [(0, 0)] [[97, 98, 99]]) ∧
      (shard_buffer_t.mk 4 [] [(0, 0)] [[97, 98, 99]]).get 0 [0, 0, 0, 0] 4
        = .ok (_SHARDBUF_SUCCEED, [97, 98, 99, 0], 3) := by
  decide

/-- C8 (where the claim fails). With `offset` equal to the chunk length the
call takes the branch "delete in both": on the entry "xy" ++ "abc",
`del(0, 2, 5)` empties the overlay; after `push_back("abc")` on a store
without chunks, `del(0, 0, 5)` indexes the empty chunk vector.  With
`offset + sz` wrapping to `0` the call takes the branch "delete within the
chunk": `del(0, 2^64 - 1, 1)` on an entry without chunk bytes makes
`erase` throw. -/
theorem del_range_past_overlay_not_noop :
    (2 ≥ 2 ∧ (2 - 2) + 5 > ([97, 98, 99] : List Byte).length ∧
      (shard_buffer_t.mk 4 [[120, 121]] [(0, 2)] [[97, 98, 99]]).del_range 0 2 5
        = .ok (_SHARDBUF_SUCCEED, shard_buffer_t.mk 4 [[120, 121]] [(0, 2)] [[]])) ∧
    (0 ≥ 0 ∧ (0 - 0) + 5 > ([97, 98, 99] : List Byte).length ∧
      ((shard_buffer_t.mk 4 [] [] []).push_back [97, 98, 99]).2.del_range 0 0 5
        = .error .vector_index) ∧
    (18446744073709551615 ≥ 0 ∧
      (18446744073709551615 - 0) + 1 > ([97, 98, 99] : List Byte).length ∧
      (shard_buffer_t.mk 4 [[120, 121]] [(0, 0)] [[97, 98, 99]]).del_range 0
          18446744073709551615 1
        = .error .out_of_range) := by
  decide

/-- C8 (amended). For every store, every valid index `idx` with chunk length
`chunk_sz` and overlay `g`, every `offset > chunk_sz` and every `sz` such that
`offset + sz` is a `size_t` value and `(offset - chunk_sz) + sz` exceeds `|g|`:
`del(idx, offset, sz)` returns success and leaves the store as it was. -/
theorem del_range_past_overlay_noop (s : shard_buffer_t) (idx offset sz chunk_loc chunk_sz : Nat)
    (g : List Byte)
    (he : s.entries[idx]? = some (chunk_loc, chunk_sz)) (hg : s.growbuf[idx]? = some g)
    (hoff : chunk_sz < offset) (hfit : offset + sz < SIZE_MOD)
    (hpast : g.length < (offset - chunk_sz) + sz) :
    s.del_range idx offset sz = .ok (_SHARDBUF_SUCCEED, s) := by
  have hidx := idx_lt_of_getElem? he
  unfold shard_buffer_t.del_range
  simp only [CHECK_OUT_RANGE, vec_at_ok he, vec_at_ok hg]
  rw [if_neg (by simpa using hidx), size_add_of_lt hfit, if_neg (by omega), if_neg (by omega),
    size_sub_of_le (by omega) hfit, if_neg (by omega)]

/-- C8 (amended), at the entry "xy" ++ "abc" with the range [3, 6). -/
theorem del_range_past_overlay_noop_witness :
    ((shard_buffer_t.mk 4 [[120, 121]] [(0, 2)] [[97, 98, 99]]).entries[0]? = some (0, 2) ∧
      (shard_buffer_t.mk 4 [[120, 121]] [(0, 2)] [[97, 98, 99]]).growbuf[0]?
        = some [97, 98, 99] ∧
      2 < 3 ∧ 3 + 3 < SIZE_MOD ∧ ([97, 98, 99] : List Byte).length < (3 - 2) + 3) ∧
    (shard_buffer_t.mk 4 [[120, 121]] [(0, 2)] [[97, 98, 99]]).del_range 0 3 3
      = .ok (_SHARDBUF_SUCCEED, shard_buffer_t.mk 4 [[120, 121]] [(0, 2)] [[97, 98, 99]]) :=
  ⟨by decide,
    del_range_past_overlay_noop (shard_buffer_t.mk 4 [[120, 121]] [(0, 2)] [[97, 98, 99]])
      0 3 3 0 2 [97, 98, 99] (by decide) (by decide) (by decide) (by decide) (by decide)⟩

/-! ## Adding an entry -/

/-- C9 (where the claim fails). `push_back` returns the same status on the
store with no entry and on the store with one entry, so whatever `int` the
status stands for, the value returned is not the entry count before the call,
and two successive calls do not return increasing values. -/
theorem push_back_returns_no_index :
    (¬ ∃ code : Status → Int, ∀ (s : shard_buffer_t) (b : List Byte),
        code (s.push_back b).1 = (s.entries.length : Int)) ∧
      ((shard_buffer_t.mk 4 [] [] []).push_back [97]).1
        = (((shard_buffer_t.mk 4 [] [] []).push_back [97]).2.push_back [98]).1 := by
  refine ⟨?_, rfl⟩
  rintro ⟨code, h⟩
  have h0 := h (shard_buffer_t.mk 4 [] [] []) []
  have h1 := h (shard_buffer_t.mk 4 [] [(0, 0)] [[]]) []
  simp [push_back] at h0 h1
  omega

/-- C9 (amended). For every store with `n` entries and every byte string `b`:
`push_back(b)` returns `_SHARDBUF_SUCCEED`; afterwards the entries are the old
ones followed by the new entry `(0, 0)` at index `n`, the overlays are the old
ones followed by `b`, and the entry count is `n + 1`; the entry a second
`push_back` adds is at index `n + 1`. -/
theorem push_back_appends (s : shard_buffer_t) (b b2 : List Byte) :
    (s.push_back b).1 = _SHARDBUF_SUCCEED ∧
      (s.push_back b).2.entries = s.entries ++ [(0, 0)] ∧
      (s.push_back b).2.growbuf = s.growbuf ++ [b] ∧
      (s.push_back b).2.entries[s.entries.length]? = some (0, 0) ∧
      (s.push_back b).2.growbuf[s.growbuf.length]? = some b ∧
      (s.push_back b).2.entries.length = s.entries.length + 1 ∧
      ((s.push_back b).2.push_back b2).2.entries[s.entries.length + 1]? = some (0, 0) ∧
      ((s.push_back b).2.push_back b2).2.entries.length = s.entries.length + 2 := by
  refine ⟨rfl, rfl, rfl, ?_, ?_, ?_, ?_, ?_⟩
  · simp [push_back]
  · simp [push_back]
  · simp [push_back]
  · show (s.entries ++ [(0, 0)] ++ [(0, 0)])[s.entries.length + 1]? = some (0, 0)
    rw [List.getElem?_append_right (by simp)]
    simp
  · simp [push_back]

/-! ## Compaction -/

theorem le_max_chunk_loc (l : List (Nat × Nat)) :
    ∀ acc, acc ≤ max_chunk_loc acc l ∧ ∀ e ∈ l, e.1 ≤ max_chunk_loc acc l := by
  induction l with
  | nil => intro acc; simp [max_chunk_loc]
  | cons x xs ih =>
    intro acc
    unfold max_chunk_loc
    obtain ⟨h1, h2⟩ := ih (if acc > x.1 then acc else x.1)
    by_cases hc : acc > x.1
    · rw [if_pos hc] at h1 h2 ⊢
      refine ⟨h1, ?_⟩
      intro e he
      rcases List.mem_cons.1 he with rfl | he
      · omega
      · exact h2 e he
    · rw [if_neg hc] at h1 h2 ⊢
      refine ⟨by omega, ?_⟩
      intro e he
      rcases List.mem_cons.1 he with rfl | he
      · omega
      · exact h2 e he

theorem max_chunk_loc_mem (l : List (Nat × Nat)) :
    ∀ acc, max_chunk_loc acc l = acc ∨ ∃ e ∈ l, e.1 = max_chunk_loc acc l := by
  induction l with
  | nil => intro acc; simp [max_chunk_loc]
  | cons x xs ih =>
    intro acc
    unfold max_chunk_loc
    rcases ih (if acc > x.1 then acc else x.1) with h | ⟨e, he, h⟩
    · by_cases hc : acc > x.1
      · rw [if_pos hc] at h ⊢
        exact Or.inl h
      · rw [if_neg hc] at h ⊢
        exact Or.inr ⟨x, List.mem_cons_self _ _, h.symm⟩
    · exact Or.inr ⟨e, List.mem_cons_of_mem _ he, h⟩

theorem max_chunk_loc_attained (l : List (Nat × Nat)) (hl : l ≠ []) :
    ∃ e ∈ l, e.1 = max_chunk_loc 0 l := by
  rcases max_chunk_loc_mem l 0 with h | h
  · cases l with
    | nil => exact absurd rfl hl
    | cons x xs =>
      refine ⟨x, List.mem_cons_self _ _, ?_⟩
      have := (le_max_chunk_loc (x :: xs) 0).2 x (List.mem_cons_self _ _)
      omega
  · exact h

theorem serialize_loop_faults (s : shard_buffer_t) (n : Nat) :
    ∀ (i : Nat) (new_chunks : List (List Byte)) (entries : List (Nat × Nat)) (j loc sz : Nat),
      i ≤ j → j < i + n → entries[j]? = some (loc, sz) →
      new_chunks.length ≤ GET_CHUNK_INDEX loc s.chunk_log →
      ∃ f, serialize_loop s n i new_chunks entries = .error f := by
  induction n with
  | zero => intro i _ _ j _ _ h1 h2; omega
  | succ n ih =>
    intro i new_chunks entries j loc sz h1 h2 hj hidx
    unfold serialize_loop
    cases he : vec_at entries i with
    | error f => exact ⟨f, rfl⟩
    | ok e =>
      obtain ⟨chunk_loc, chunk_sz⟩ := e
      simp only
      cases hn : vec_at new_chunks (GET_CHUNK_INDEX chunk_loc s.chunk_log) with
      | error f => exact ⟨f, rfl⟩
      | ok target =>
        simp only
        cases hg : vec_at s.growbuf i with
        | error f => exact ⟨f, rfl⟩
        | ok g =>
          simp only
          cases hc : vec_at s.chunks (GET_CHUNK_INDEX chunk_loc s.chunk_log) with
          | error f => exact ⟨f, rfl⟩
          | ok chunk =>
            simp only
            cases hr : string_read chunk (GET_CHUNK_OFFSET chunk_loc s.chunk_log) chunk_sz with
            | error f => exact ⟨f, rfl⟩
            | ok bytes =>
              simp only
              have hij : i ≠ j := by
                intro hij
                subst hij
                unfold vec_at at he
                rw [hj] at he
                injection he with he
                injection he with he1 he2
                subst he1
                rw [vec_at_error hidx] at hn
                cases hn
              exact ih (i + 1) _ _ j loc sz (by omega) (by omega)
                (by rw [List.getElem?_set_ne hij]; exact hj) (by simpa using hidx)

/-- On every store with at least one entry `serialize` does not return: the
entry with the largest `chunk_loc` has the chunk index `num_new_chunks`, which
is not below the size of `new_chunks`. -/
theorem serialize_nonempty_faults (s : shard_buffer_t) (h : s.entries ≠ []) :
    ∃ f, s.serialize = .error f := by
  obtain ⟨e, he, hmax⟩ := max_chunk_loc_attained s.entries h
  obtain ⟨j, hj, hje⟩ := List.getElem_of_mem he
  obtain ⟨f, hf⟩ := serialize_loop_faults s s.entries.length 0
    (List.replicate (max_chunk_loc 0 s.entries / 2 ^ s.chunk_log) []) s.entries j e.1 e.2
    (Nat.zero_le _) (by omega) (by rw [List.getElem?_eq_getElem hj, hje])
    (by simp [GET_CHUNK_INDEX, hmax])
  refine ⟨f, ?_⟩
  unfold shard_buffer_t.serialize
  simp only [hf]

/-- C4 (the code at a failing input). `serialize` allocates
`max chunk_loc >> chunk_log` new chunks, one fewer than the largest chunk index
needs: on the store whose only entry is "foo" ++ "bar" (chunk span inside chunk
0), and on the store made by `push_back("foo")`, the loop indexes the empty
vector `new_chunks` at 0 and the call does not return a store. -/
theorem serialize_one_entry_faults :
    (span_inside (shard_buffer_t.mk 4 [[102, 111, 111]] [(0, 3)] [[98, 97, 114]]) 0 = true ∧
      (shard_buffer_t.mk 4 [[102, 111, 111]] [(0, 3)] [[98, 97, 114]]).get 0
          [0, 0, 0, 0, 0, 0] 6
        = .ok (_SHARDBUF_SUCCEED, [102, 111, 111, 98, 97, 114], 6) ∧
      (shard_buffer_t.mk 4 [[102, 111, 111]] [(0, 3)] [[98, 97, 114]]).serialize
        = .error .vector_index) ∧
    ((shard_buffer_t.mk 4 [] [] []).push_back [102, 111, 111]).2.serialize
      = .error .vector_index := by
  decide

/-! ## Invalid index, clearing, and the frame of `app` -/

/-- C11. For every store with `n` entries and every `idx ≥ n`: each of `set`,
`get`, `app`, `del(idx)` and `del(idx, offset, sz)` returns
`_SHARDBUF_OUT_OF_RANGE` and the store (chunk_log, chunks, entries, overlays)
is the one passed; `get` also returns the buffer and the capacity as passed. -/
theorem out_of_range_idx (s : shard_buffer_t) (idx : Nat) (b userbuf : List Byte)
    (userbuf_sz offset sz : Nat) (h : s.entries.length ≤ idx) :
    s.set idx b = .ok (_SHARDBUF_OUT_OF_RANGE, s) ∧
      s.get idx userbuf userbuf_sz = .ok (_SHARDBUF_OUT_OF_RANGE, userbuf, userbuf_sz) ∧
      s.app idx b = .ok (_SHARDBUF_OUT_OF_RANGE, s) ∧
      s.del idx = .ok (_SHARDBUF_OUT_OF_RANGE, s) ∧
      s.del_range idx offset sz = .ok (_SHARDBUF_OUT_OF_RANGE, s) := by
  have hc : CHECK_OUT_RANGE s idx = true := by simpa [CHECK_OUT_RANGE] using h
  refine ⟨?_, ?_, ?_, ?_, ?_⟩
  · unfold shard_buffer_t.set; rw [if_pos hc]
  · unfold shard_buffer_t.get; rw [if_pos hc]
  · unfold shard_buffer_t.app; rw [if_pos hc]
  · unfold shard_buffer_t.del; rw [if_pos hc]
  · unfold shard_buffer_t.del_range; rw [if_pos hc]

/-- C11, at `get(5, buf)` and the other calls on a store with two entries. -/
theorem out_of_range_idx_witness :
    (shard_buffer_t.mk 4 [[120]] [(0, 1), (0, 0)] [[97], [98]]).entries.length ≤ 5 ∧
      ((shard_buffer_t.mk 4 [[120]] [(0, 1), (0, 0)] [[97], [98]]).set 5 [99]
          = .ok (_SHARDBUF_OUT_OF_RANGE,
              shard_buffer_t.mk 4 [[120]] [(0, 1), (0, 0)] [[97], [98]]) ∧
        (shard_buffer_t.mk 4 [[120]] [(0, 1), (0, 0)] [[97], [98]]).get 5 [7, 7] 2
          = .ok (_SHARDBUF_OUT_OF_RANGE, [7, 7], 2) ∧
        (shard_buffer_t.mk 4 [[120]] [(0, 1), (0, 0)] [[97], [98]]).app 5 [99]
          = .ok (_SHARDBUF_OUT_OF_RANGE,
              shard_buffer_t.mk 4 [[120]] [(0, 1), (0, 0)] [[97], [98]]) ∧
        (shard_buffer_t.mk 4 [[120]] [(0, 1), (0, 0)] [[97], [98]]).del 5
          = .ok (_SHARDBUF_OUT_OF_RANGE,
              shard_buffer_t.mk 4 [[120]] [(0, 1), (0, 0)] [[97], [98]]) ∧
        (shard_buffer_t.mk 4 [[120]] [(0, 1), (0, 0)] [[97], [98]]).del_range 5 0 1
          = .ok (_SHARDBUF_OUT_OF_RANGE,
              shard_buffer_t.mk 4 [[120]] [(0, 1), (0, 0)] [[97], [98]])) :=
  ⟨by decide,
    out_of_range_idx (shard_buffer_t.mk 4 [[120]] [(0, 1), (0, 0)] [[97], [98]]) 5 [99] [7, 7]
      2 0 1 (by decide)⟩

theorem del_ok (s : shard_buffer_t) (idx : Nat)
    (hidx : idx < s.entries.length) (hg : idx < s.growbuf.length) :
    s.del idx
      = .ok (_SHARDBUF_SUCCEED,
          { s with entries := s.entries.set idx (0, 0), growbuf := s.growbuf.set idx [] }) := by
  unfold shard_buffer_t.del
  rw [if_neg (by simpa [CHECK_OUT_RANGE] using hidx),
    vec_at_ok (List.getElem?_eq_getElem hg)]

/-- C15. For every store (entries and overlays paired), every valid index
`idx`, every buffer and every capacity: `del(idx)` succeeds and leaves the
entry `(0, 0)` with the empty overlay, and `get(idx)` right after it succeeds,
reports zero bytes written and leaves the buffer as it was. -/
theorem get_after_del (s : shard_buffer_t) (idx : Nat) (userbuf : List Byte)
    (userbuf_sz : Nat)
    (hidx : idx < s.entries.length) (hpair : s.entries.length = s.growbuf.length) :
    ∃ s2, s.del idx = .ok (_SHARDBUF_SUCCEED, s2) ∧
      s2.entries[idx]? = some (0, 0) ∧ s2.growbuf[idx]? = some [] ∧
      s2.get idx userbuf userbuf_sz = .ok (_SHARDBUF_SUCCEED, userbuf, 0) := by
  have hg : idx < s.growbuf.length := by omega
  have he2 : (s.entries.set idx (0, 0))[idx]? = some (0, 0) := by
    simp [List.getElem?_set, hidx]
  have hg2 : (s.growbuf.set idx ([] : List Byte))[idx]? = some [] := by
    simp [List.getElem?_set, hg]
  refine ⟨_, del_ok s idx hidx hg, he2, hg2, ?_⟩
  have h := get_of_chunk_part
    { s with entries := s.entries.set idx (0, 0), growbuf := s.growbuf.set idx [] }
    idx userbuf userbuf_sz 0 0 [] [] he2 hg2 (chunk_part_zero _ _) (by simp)
    (by simp [SIZE_MOD]) (by simp)
  simpa using h

/-- C15, at an entry with three chunk bytes and two overlay bytes. -/
theorem get_after_del_witness :
    (0 < (shard_buffer_t.mk 4 [[97, 98, 99]] [(0, 3)] [[100, 101]]).entries.length ∧
      (shard_buffer_t.mk 4 [[97, 98, 99]] [(0, 3)] [[100, 101]]).entries.length
        = (shard_buffer_t.mk 4 [[97, 98, 99]] [(0, 3)] [[100, 101]]).growbuf.length) ∧
    ∃ s2, (shard_buffer_t.mk 4 [[97, 98, 99]] [(0, 3)] [[100, 101]]).del 0
        = .ok (_SHARDBUF_SUCCEED, s2) ∧
      s2.entries[0]? = some (0, 0) ∧ s2.growbuf[0]? = some [] ∧
      s2.get 0 [7, 7] 2 = .ok (_SHARDBUF_SUCCEED, [7, 7], 0) :=
  ⟨by decide,
    get_after_del (shard_buffer_t.mk 4 [[97, 98, 99]] [(0, 3)] [[100, 101]]) 0 [7, 7] 2
      (by decide) (by decide)⟩

/-- C19. For every store, every valid index `idx` with overlay `g` and every
byte string `b`: `app(idx, b)` succeeds and the store afterwards has the same
`chunk_log`, the same chunks, the same entries (so the same entry count and the
same `(chunk_loc, chunk_sz)` everywhere, at `idx` too), as many overlays as
before, the overlay `g ++ b` at `idx` and every other overlay as it was. -/
theorem app_changes_one_overlay (s : shard_buffer_t) (idx : Nat) (b g : List Byte)
    (hidx : idx < s.entries.length) (hg : s.growbuf[idx]? = some g) :
    ∃ s2, s.app idx b = .ok (_SHARDBUF_SUCCEED, s2) ∧
      s2.chunk_log = s.chunk_log ∧ s2.chunks = s.chunks ∧ s2.entries = s.entries ∧
      s2.growbuf.length = s.growbuf.length ∧ s2.growbuf[idx]? = some (g ++ b) ∧
      ∀ j, j ≠ idx → s2.growbuf[j]? = s.growbuf[j]? := by
  have hgl := idx_lt_of_getElem? hg
  refine ⟨_, app_ok s idx b g hidx hg, rfl, rfl, rfl, by simp, by simp [List.getElem?_set, hgl],
    ?_⟩
  intro j hj
  exact List.getElem?_set_ne (Ne.symm hj)

/-- C19, at the second of two entries. -/
theorem app_changes_one_overlay_witness :
    (1 < (shard_buffer_t.mk 4 [[120]] [(0, 1), (0, 0)] [[97], [98]]).entries.length ∧
      (shard_buffer_t.mk 4 [[120]] [(0, 1), (0, 0)] [[97], [98]]).growbuf[1]? = some [98]) ∧
    ∃ s2, (shard_buffer_t.mk 4 [[120]] [(0, 1), (0, 0)] [[97], [98]]).app 1 [99]
        = .ok (_SHARDBUF_SUCCEED, s2) ∧
      s2.chunk_log = 4 ∧ s2.chunks = [[120]] ∧ s2.entries = [(0, 1), (0, 0)] ∧
      s2.growbuf.length = ([[97], [98]] : List (List Byte)).length ∧
      s2.growbuf[1]? = some ([98] ++ [99]) ∧
      ∀ j, j ≠ 1 → s2.growbuf[j]? = ([[97], [98]] : List (List Byte))[j]? :=
  ⟨by decide,
    app_changes_one_overlay (shard_buffer_t.mk 4 [[120]] [(0, 1), (0, 0)] [[97], [98]]) 1 [99]
      [98] (by decide) (by decide)⟩

/-! ## Compaction: what the parts of `serialize` do -/

theorem serialize_unfold (s : shard_buffer_t) :
    s.serialize
      = match serialize_loop s s.entries.length 0 (List.replicate (num_new_chunks s) [])
          s.entries with
        | .error f => .error f
        | .ok (chunks, entries) =>
          .ok { s with chunks := chunks, entries := entries, growbuf := [] } := rfl

/-- The number of chunks `serialize` allocates is the largest chunk index of
an entry, and some entry has it. -/
theorem num_new_chunks_is_max_index (s : shard_buffer_t) (h : s.entries ≠ []) :
    (∀ e ∈ s.entries, GET_CHUNK_INDEX e.1 s.chunk_log ≤ num_new_chunks s) ∧
      ∃ e ∈ s.entries, GET_CHUNK_INDEX e.1 s.chunk_log = num_new_chunks s := by
  refine ⟨?_, ?_⟩
  · intro e he
    exact Nat.div_le_div_right ((le_max_chunk_loc s.entries 0).2 e he)
  · obtain ⟨e, he, hmax⟩ := max_chunk_loc_attained s.entries h
    exact ⟨e, he, by simp [GET_CHUNK_INDEX, num_new_chunks, hmax]⟩

theorem serialize_loop_length (s : shard_buffer_t) (n : Nat) :
    ∀ (i : Nat) (new_chunks chunks2 : List (List Byte)) (entries entries2 : List (Nat × Nat)),
      serialize_loop s n i new_chunks entries = .ok (chunks2, entries2) →
      chunks2.length = new_chunks.length ∧ entries2.length = entries.length := by
  induction n with
  | zero =>
    intro i new_chunks chunks2 entries entries2 h
    unfold serialize_loop at h
    injection h with h
    injection h with h1 h2
    subst h1 h2
    exact ⟨rfl, rfl⟩
  | succ n ih =>
    intro i new_chunks chunks2 entries entries2 h
    unfold serialize_loop at h
    cases he : vec_at entries i with
    | error f => rw [he] at h; cases h
    | ok e =>
      obtain ⟨chunk_loc, chunk_sz⟩ := e
      rw [he] at h
      simp only at h
      cases hn : vec_at new_chunks (GET_CHUNK_INDEX chunk_loc s.chunk_log) with
      | error f => rw [hn] at h; cases h
      | ok target =>
        rw [hn] at h
        simp only at h
        cases hg : vec_at s.growbuf i with
        | error f => rw [hg] at h; cases h
        | ok g =>
          rw [hg] at h
          simp only at h
          cases hc : vec_at s.chunks (GET_CHUNK_INDEX chunk_loc s.chunk_log) with
          | error f => rw [hc] at h; cases h
          | ok chunk =>
            rw [hc] at h
            simp only at h
            cases hr : string_read chunk (GET_CHUNK_OFFSET chunk_loc s.chunk_log) chunk_sz with
            | error f => rw [hr] at h; cases h
            | ok bytes =>
              rw [hr] at h
              simp only at h
              have := ih _ _ _ _ _ h
              simpa using this

/-- Whenever `serialize` returns a store, that store has no overlay at all
(`growbuf.clear()` empties the vector) and as many entries as before; by
`serialize_nonempty_faults` this happens on the store without entries only. -/
theorem serialize_ok_growbuf (s s2 : shard_buffer_t) (h : s.serialize = .ok s2) :
    s2.growbuf = [] ∧ s2.entries.length = s.entries.length ∧ s.entries = [] := by
  have hnil : s.entries = [] := by
    by_contra hne
    obtain ⟨f, hf⟩ := serialize_nonempty_faults s hne
    rw [hf] at h
    cases h
  rw [serialize_unfold] at h
  cases hl : serialize_loop s s.entries.length 0 (List.replicate (num_new_chunks s) [])
      s.entries with
  | error f => rw [hl] at h; cases h
  | ok r =>
    obtain ⟨chunks2, entries2⟩ := r
    rw [hl] at h
    simp only at h
    injection h with h
    subst h
    exact ⟨rfl, (serialize_loop_length s _ _ _ _ _ _ hl).2, hnil⟩

/-! ## The pairing of entries and overlays -/

theorem set_lengths (s s2 : shard_buffer_t) (idx : Nat) (b : List Byte) (st : Status)
    (h : s.set idx b = .ok (st, s2)) :
    s2.entries.length = s.entries.length ∧ s2.growbuf.length = s.growbuf.length := by
  unfold shard_buffer_t.set at h
  repeat' split at h
  all_goals (cases h <;> simp)

theorem app_lengths (s s2 : shard_buffer_t) (idx : Nat) (b : List Byte) (st : Status)
    (h : s.app idx b = .ok (st, s2)) :
    s2.entries.length = s.entries.length ∧ s2.growbuf.length = s.growbuf.length := by
  unfold shard_buffer_t.app at h
  repeat' split at h
  all_goals (cases h <;> simp)

theorem del_lengths (s s2 : shard_buffer_t) (idx : Nat) (st : Status)
    (h : s.del idx = .ok (st, s2)) :
    s2.entries.length = s.entries.length ∧ s2.growbuf.length = s.growbuf.length := by
  unfold shard_buffer_t.del at h
  repeat' split at h
  all_goals (cases h <;> simp)

theorem del_range_lengths (s s2 : shard_buffer_t) (idx offset sz : Nat) (st : Status)
    (h : s.del_range idx offset sz = .ok (st, s2)) :
    s2.entries.length = s.entries.length ∧ s2.growbuf.length = s.growbuf.length := by
  unfold shard_buffer_t.del_range at h
  by_cases hc : CHECK_OUT_RANGE s idx = true
  · rw [if_pos hc] at h
    cases h
    simp
  · rw [if_neg hc] at h
    cases he : vec_at s.entries idx with
    | error f => rw [he] at h; cases h
    | ok e =>
      obtain ⟨chunk_loc, chunk_sz⟩ := e
      rw [he] at h
      simp only at h
      by_cases h1 : size_add offset sz ≤ chunk_sz
      · rw [if_pos h1] at h
        cases hv : vec_at s.chunks (GET_CHUNK_INDEX chunk_loc s.chunk_log) with
        | error f => rw [hv] at h; cases h
        | ok chunk =>
          rw [hv] at h
          simp only at h
          cases hx : string_erase chunk (size_add (GET_CHUNK_OFFSET chunk_loc s.chunk_log) offset)
              sz with
          | error f => rw [hx] at h; cases h
          | ok chunk2 =>
            rw [hx] at h
            cases h
            simp
      · rw [if_neg h1] at h
        by_cases h2 : offset ≤ chunk_sz
        · rw [if_pos h2] at h
          cases hv : vec_at s.chunks (GET_CHUNK_INDEX chunk_loc s.chunk_log) with
          | error f => rw [hv] at h; cases h
          | ok chunk =>
            rw [hv] at h
            simp only at h
            cases hx : string_erase chunk
                (size_add (GET_CHUNK_OFFSET chunk_loc s.chunk_log) offset)
                (size_sub sz (size_sub (size_add offset sz) chunk_sz)) with
            | error f => rw [hx] at h; cases h
            | ok chunk2 =>
              rw [hx] at h
              simp only at h
              cases hg : vec_at s.growbuf idx with
              | error f => rw [hg] at h; cases h
              | ok g =>
                rw [hg] at h
                simp only at h
                cases hy : string_erase g 0 (size_sub (size_add offset sz) chunk_sz) with
                | error f => rw [hy] at h; cases h
                | ok g2 =>
                  rw [hy] at h
                  cases h
                  simp
        · rw [if_neg h2] at h
          cases hg : vec_at s.growbuf idx with
          | error f => rw [hg] at h; cases h
          | ok g =>
            rw [hg] at h
            simp only at h
            by_cases h3 : size_sub (size_add offset sz) chunk_sz < g.length
            · rw [if_pos h3] at h
              cases hy : string_erase g (size_sub offset chunk_sz) sz with
              | error f => rw [hy] at h; cases h
              | ok g2 =>
                rw [hy] at h
                cases h
                simp
            · rw [if_neg h3] at h
              cases h
              simp

/-- The operations other than `serialize` keep the entry sequence and the
overlay sequence at equal length. -/
theorem pairing_kept (s : shard_buffer_t) (hpair : s.entries.length = s.growbuf.length) :
    (∀ idx b st s2, s.set idx b = .ok (st, s2) → s2.entries.length = s2.growbuf.length) ∧
      (∀ idx b st s2, s.app idx b = .ok (st, s2) → s2.entries.length = s2.growbuf.length) ∧
      (∀ idx st s2, s.del idx = .ok (st, s2) → s2.entries.length = s2.growbuf.length) ∧
      (∀ idx offset sz st s2, s.del_range idx offset sz = .ok (st, s2) →
        s2.entries.length = s2.growbuf.length) ∧
      (∀ b, (s.push_back b).2.entries.length = (s.push_back b).2.growbuf.length) := by
  refine ⟨?_, ?_, ?_, ?_, ?_⟩
  · intro idx b st s2 h
    have := set_lengths s s2 idx b st h
    omega
  · intro idx b st s2 h
    have := app_lengths s s2 idx b st h
    omega
  · intro idx st s2 h
    have := del_lengths s s2 idx st h
    omega
  · intro idx offset sz st s2 h
    have := del_range_lengths s s2 idx offset sz st h
    omega
  · intro b
    simp [push_back, hpair]

/-! ## Compaction: the claims at concrete stores -/

/-- C12 (the code at a failing input). After `push_back("a")` and
`push_back("b")` the store has two entries and two overlays; `serialize` on it
indexes the empty vector `new_chunks` and returns no store, so there is no
paired state after the call. -/
theorem serialize_two_entries_faults :
    (((shard_buffer_t.mk 4 [] [] []).push_back [97]).2.push_back [98]).2
        = shard_buffer_t.mk 4 [] [(0, 0), (0, 0)] [[97], [98]] ∧
      (shard_buffer_t.mk 4 [] [(0, 0), (0, 0)] [[97], [98]]).entries.length
        = (shard_buffer_t.mk 4 [] [(0, 0), (0, 0)] [[97], [98]]).growbuf.length ∧
      num_new_chunks (shard_buffer_t.mk 4 [] [(0, 0), (0, 0)] [[97], [98]]) = 0 ∧
      (shard_buffer_t.mk 4 [] [(0, 0), (0, 0)] [[97], [98]]).serialize
        = .error .vector_index := by
  decide

/-- C13 (the code at a failing input). `push_back("foo")`, `app(0, "bar")`
give the entry `(0, 0)` with overlay "foobar", which `get(0)` returns;
`serialize` then allocates no chunk, indexes `new_chunks[0]` and returns no
store: no entry with chunk length 6 and empty overlay comes out. -/
theorem serialize_foobar_faults :
    ((shard_buffer_t.mk 4 [] [] []).push_back [102, 111, 111]).2.app 0 [98, 97, 114]
        = .ok (_SHARDBUF_SUCCEED,
            shard_buffer_t.mk 4 [] [(0, 0)] [[102, 111, 111, 98, 97, 114]]) ∧
      (shard_buffer_t.mk 4 [] [(0, 0)] [[102, 111, 111, 98, 97, 114]]).get 0
          [0, 0, 0, 0, 0, 0] 6
        = .ok (_SHARDBUF_SUCCEED, [102, 111, 111, 98, 97, 114], 6) ∧
      num_new_chunks (shard_buffer_t.mk 4 [] [(0, 0)] [[102, 111, 111, 98, 97, 114]]) = 0 ∧
      (shard_buffer_t.mk 4 [] [(0, 0)] [[102, 111, 111, 98, 97, 114]]).serialize
        = .error .vector_index := by
  decide

/-- C14 (the code at a failing input). On the store with `chunk_log = 4` and
the entries `(0, 1)` (chunk index 0) and `(33, 2)` (chunk index 2),
`serialize` allocates `33 >> 4 = 2` new chunks where `2 + 1` are needed: the
chunk index 2 is out of range of `new_chunks` and the call returns no store. -/
theorem serialize_allocates_max_index :
    GET_CHUNK_INDEX 0 4 = 0 ∧ GET_CHUNK_INDEX 33 4 = 2 ∧
      span_inside (shard_buffer_t.mk 4 [[97], [], [120, 98, 99]] [(0, 1), (33, 2)] [[], []]) 0
        = true ∧
      span_inside (shard_buffer_t.mk 4 [[97], [], [120, 98, 99]] [(0, 1), (33, 2)] [[], []]) 1
        = true ∧
      num_new_chunks (shard_buffer_t.mk 4 [[97], [], [120, 98, 99]] [(0, 1), (33, 2)] [[], []])
        = 2 ∧
      ¬ (GET_CHUNK_INDEX 33 4 + 1
        ≤ num_new_chunks
            (shard_buffer_t.mk 4 [[97], [], [120, 98, 99]] [(0, 1), (33, 2)] [[], []])) ∧
      (shard_buffer_t.mk 4 [[97], [], [120, 98, 99]] [(0, 1), (33, 2)] [[], []]).serialize
        = .error .vector_index := by
  decide

/-- C16 (the code at a failing input). The store whose one entry is purely
chunk-resident ("foo" in chunk 0, empty overlay), as a compaction is meant to
leave it: `get(0)` returns "foo", and `serialize` returns no store, so there
is no state after one compaction, nor after two, on which `get` could agree. -/
theorem serialize_compacted_store_faults :
    span_inside (shard_buffer_t.mk 4 [[102, 111, 111]] [(0, 3)] [[]]) 0 = true ∧
      (shard_buffer_t.mk 4 [[102, 111, 111]] [(0, 3)] [[]]).get 0 [0, 0, 0] 3
        = .ok (_SHARDBUF_SUCCEED, [102, 111, 111], 3) ∧
      num_new_chunks (shard_buffer_t.mk 4 [[102, 111, 111]] [(0, 3)] [[]]) = 0 ∧
      (shard_buffer_t.mk 4 [[102, 111, 111]] [(0, 3)] [[]]).serialize
        = .error .vector_index := by
  decide

/-- C17 (the code at a failing input). The entry `(16, 1)` with
`chunk_log = 4` has chunk index 1 and offset 0.  `serialize` allocates one new
chunk and returns no store.  The loop of `serialize`, run once from two empty
new chunks, appends the byte to new chunk 1 and stores `(0, 1)` as the entry:
the new `chunk_loc` is the offset alone, its chunk index is 0 and not 1. -/
theorem serialize_drops_chunk_index :
    GET_CHUNK_INDEX 16 4 = 1 ∧ GET_CHUNK_OFFSET 16 4 = 0 ∧
      span_inside (shard_buffer_t.mk 4 [[], [97]] [(16, 1)] [[]]) 0 = true ∧
      num_new_chunks (shard_buffer_t.mk 4 [[], [97]] [(16, 1)] [[]]) = 1 ∧
      (shard_buffer_t.mk 4 [[], [97]] [(16, 1)] [[]]).serialize = .error .vector_index ∧
      serialize_loop (shard_buffer_t.mk 4 [[], [97]] [(16, 1)] [[]]) 1 0 [[], []] [(16, 1)]
        = .ok ([[], [97]], [(0, 1)]) ∧
      GET_CHUNK_INDEX 0 4 = 0 := by
  decide

/-- C18 (the code at a failing input). Three entries with `chunk_log = 4`:
"ab" in chunk 0 with overlay "d", "c" in chunk 1, and the overlay "e" alone
(chunk index 0); the byte "X" of chunk 0 belongs to no entry.  `serialize`
allocates one new chunk, meets the chunk index 1 at the second entry and
returns no store.  The loop of `serialize`, run from two empty new chunks,
builds "abde" and "c": the contents in entry order per chunk index, without
"X". -/
theorem serialize_packs_no_chunks :
    span_inside
        (shard_buffer_t.mk 4 [[97, 98, 88], [99]] [(0, 2), (16, 1), (0, 0)] [[100], [], [101]]) 0
        = true ∧
      span_inside
        (shard_buffer_t.mk 4 [[97, 98, 88], [99]] [(0, 2), (16, 1), (0, 0)] [[100], [], [101]]) 1
        = true ∧
      span_inside
        (shard_buffer_t.mk 4 [[97, 98, 88], [99]] [(0, 2), (16, 1), (0, 0)] [[100], [], [101]]) 2
        = true ∧
      num_new_chunks
        (shard_buffer_t.mk 4 [[97, 98, 88], [99]] [(0, 2), (16, 1), (0, 0)] [[100], [], [101]])
        = 1 ∧
      (shard_buffer_t.mk 4 [[97, 98, 88], [99]] [(0, 2), (16, 1), (0, 0)]
          [[100], [], [101]]).serialize
        = .error .vector_index ∧
      serialize_loop
          (shard_buffer_t.mk 4 [[97, 98, 88], [99]] [(0, 2), (16, 1), (0, 0)] [[100], [], [101]])
          3 0 [[], []] [(0, 2), (16, 1), (0, 0)]
        = .ok ([[97, 98, 100, 101], [99]], [(0, 3), (0, 1), (3, 1)]) := by
  decide

/-! ## `del(idx, offset, sz)` on a store without chunks -/

theorem del_range_indexes_missing_chunk (s : shard_buffer_t) (idx sz chunk_loc : Nat)
    (he : s.entries[idx]? = some (chunk_loc, 0))
    (hc : s.chunks.length ≤ GET_CHUNK_INDEX chunk_loc s.chunk_log) :
    s.del_range idx 0 sz = .error .vector_index := by
  have hidx := idx_lt_of_getElem? he
  unfold shard_buffer_t.del_range
  simp only [CHECK_OUT_RANGE, vec_at_ok he, vec_at_error hc]
  rw [if_neg (by simpa using hidx)]
  by_cases h0 : size_add 0 sz ≤ 0
  · rw [if_pos h0]
  · rw [if_neg h0, if_pos (Nat.le_refl 0)]

/-- C20 (the code at a failing input). After `push_back("abc")` the chunk
vector is empty and the entry is `(0, 0)`.  `del(0, 0, 0)` takes the branch
"delete within the chunk" and `del(0, 0, 1)` the branch "delete in both"; both
evaluate `chunks[0]` on the empty vector.  `del(0, 1, 1)`, with `offset > 0`,
touches the overlay only. -/
theorem del_range_no_chunks_indexes_chunks :
    ((shard_buffer_t.mk 4 [] [] []).push_back [97, 98, 99]).2
        = shard_buffer_t.mk 4 [] [(0, 0)] [[97, 98, 99]] ∧
      (shard_buffer_t.mk 4 [] [(0, 0)] [[97, 98, 99]]).chunks = [] ∧
      (shard_buffer_t.mk 4 [] [(0, 0)] [[97, 98, 99]]).del_range 0 0 0 = .error .vector_index ∧
      (shard_buffer_t.mk 4 [] [(0, 0)] [[97, 98, 99]]).del_range 0 0 1 = .error .vector_index ∧
      (shard_buffer_t.mk 4 [] [(0, 0)] [[97, 98, 99]]).del_range 0 1 1
        = .ok (_SHARDBUF_SUCCEED, shard_buffer_t.mk 4 [] [(0, 0)] [[97, 99]]) := by
  decide

end vecbuf
